import Mathlib

/-!
# Verification of the `try` retry helper (`src/try.go`)

Shallow embedding of the retry loop `DoWithBackoff`, its convenience entry
point `Do`, the predicate `IsMaxRetries` and the backoff strategies
`DefaultBackoff`, `ExponentialJitterBackoff` and `jitter`.

Conventions of the embedding:

* Go `int` (on a 64-bit platform) and `time.Duration` are 64-bit two's
  complement integers. They are modelled as `Int`, and every arithmetic
  operation of the source is followed by `wrap64`, which reduces the
  mathematical result into `[-2^63, 2^63)`.
* A Go `error` is an interface value: `nil`, or a dynamic type together with a
  dynamic value (for `errors.New`, the pointer that was allocated). `==` on
  interface values compares both components.
* An operation (`Func`) and a backoff strategy are Go closures and may read
  and write captured state; they are modelled as state-passing functions over
  an arbitrary state type `σ`.
* `MaxRetries` is a package variable. It is a parameter of the loop here and
  is held fixed for the whole run.
* `<-time.Tick(d)` never delivers when `d <= 0` (`time.Tick` returns a nil
  channel then, as the comment in `DoWithBackoff` notes for 0): the run is
  blocked forever. For `d > 0` the receive completes after the delay; the
  delay itself is only recorded in the trace.
* The two draws of `rand.Intn` in `jitter` are parameters of the model, so
  that a statement about every outcome of the draws is a statement about
  every value of these parameters.
* Loops are given fuel; `none` means the fuel ran out before the loop
  finished.
-/

namespace Try

/-! ## Machine integers and durations -/

/-- Two's complement reduction of a mathematical integer to a Go `int` /
`int64` / `time.Duration`. -/
def wrap64 (x : Int) : Int :=
  (x + 9223372036854775808) % 18446744073709551616 - 9223372036854775808

/-- Largest Go `int` (64-bit), `math.MaxInt64`. -/
def maxInt : Int := 9223372036854775807

/-- Smallest Go `int` (64-bit), `math.MinInt64`. -/
def minInt : Int := -9223372036854775808

/-- `time.Microsecond`, in nanoseconds. -/
def Microsecond : Int := 1000

/-- `time.Millisecond`, in nanoseconds. -/
def Millisecond : Int := 1000000

/-- `time.Second`, in nanoseconds. -/
def Second : Int := 1000000000

/-! ## Errors -/

/-- A non-nil interface value: its dynamic type and its dynamic value (for a
pointer type, the address). -/
structure ErrValue where
  dynType : Nat
  data : Nat
  deriving DecidableEq, Repr

/-- Go `error`: `none` is `nil`. -/
abbrev error := Option ErrValue

/-- Type descriptor of `*errors.errorString`, the type `errors.New` returns. -/
def errorStringPtr : Nat := 0

/-- The value `errors.New` returns when its allocation is at `addr`. -/
def errorsNew (addr : Nat) : error := some ⟨errorStringPtr, addr⟩

/-- Address of the one allocation made when the package variable
`errMaxRetriesReached` is initialised. -/
def sentinelAddr : Nat := 0

/-- `var errMaxRetriesReached = errors.New("exceeded retry limit")`. -/
def errMaxRetriesReached : error := errorsNew sentinelAddr

/-- `IsMaxRetries`: `err == errMaxRetriesReached` on interface values. -/
def IsMaxRetries (err : error) : Bool := decide (err = errMaxRetriesReached)

/-! ## The retry loop -/

/-- `type Func func(attempt int) (retry bool, err error)`, with the state the
closure captures. -/
abbrev Func (σ : Type) := Int → σ → (Bool × error) × σ

/-- `type BackoffStrategy func(retry int) time.Duration`, with the state the
closure captures. -/
abbrev BackoffStrategy (σ : Type) := Int → σ → Int × σ

/-- What a run of the loop does, in order. -/
inductive Event where
  | call (attempt : Int) (retry : Bool) (err : error)
  | backoff (retry : Int) (d : Int)
  | tick (d : Int)
  deriving DecidableEq, Repr

/-- How a run ends: the function returns an error value, or it is blocked
forever receiving from the nil channel `time.Tick` gives for `d <= 0`. -/
inductive Outcome where
  | returned (err : error)
  | blocked
  deriving DecidableEq, Repr

/-- A finished run. -/
structure Result (σ : Type) where
  outcome : Outcome
  state : σ
  trace : List Event

/-- Put events in front of the trace of a run. -/
def Result.prepend {σ : Type} (evs : List Event) (r : Result σ) : Result σ :=
  { r with trace := evs ++ r.trace }

/-- The `for` loop of `DoWithBackoff`, entered with the current value of
`attempt`. -/
def loop {σ : Type} (MaxRetries : Int) (fn : Func σ) (backoff : BackoffStrategy σ) :
    Nat → Int → σ → Option (Result σ)
  | 0, _, _ => none
  | fuel + 1, attempt, s =>
    let r := fn attempt s
    let cont := r.1.1
    let err := r.1.2
    let s1 := r.2
    if !cont || err == none then
      some ⟨Outcome.returned err, s1, [Event.call attempt cont err]⟩
    else
      let attempt1 := wrap64 (attempt + 1)
      if attempt1 > MaxRetries then
        some ⟨Outcome.returned errMaxRetriesReached, s1, [Event.call attempt cont err]⟩
      else
        let b := backoff attempt1 s1
        let d := wrap64 (b.1 + 1 * Microsecond)
        let evs := [Event.call attempt cont err, Event.backoff attempt1 b.1, Event.tick d]
        if d ≤ 0 then
          some ⟨Outcome.blocked, b.2, evs⟩
        else
          (loop MaxRetries fn backoff fuel attempt1 b.2).map (Result.prepend evs)

/-- `DoWithBackoff(fn, backoff)` with `MaxRetries` as a parameter. -/
def DoWithBackoff {σ : Type} (fuel : Nat) (MaxRetries : Int) (fn : Func σ)
    (backoff : BackoffStrategy σ) (s : σ) : Option (Result σ) :=
  loop MaxRetries fn backoff fuel 1 s

/-- `DefaultBackoff`: `return 0 * time.Second`. -/
def DefaultBackoff (_ : Int) : Int := wrap64 (0 * Second)

/-- A backoff strategy that touches no state. -/
def pureBackoff {σ : Type} (f : Int → Int) : BackoffStrategy σ := fun i s => (f i, s)

/-- `Do(fn)`: `return DoWithBackoff(fn, DefaultBackoff)`. -/
def Do {σ : Type} (fuel : Nat) (MaxRetries : Int) (fn : Func σ) (s : σ) :
    Option (Result σ) :=
  DoWithBackoff fuel MaxRetries fn (pureBackoff DefaultBackoff) s

/-- The zero-delay strategy in the words of the specification: it ignores its
input and always returns a zero duration. -/
def specZeroDelay {σ : Type} : BackoffStrategy σ := fun _ s => (0, s)

/-- The convenience entry point in the words of the specification: run the
loop with the zero-delay backoff strategy. -/
def specRunDefault {σ : Type} (fuel : Nat) (MaxRetries : Int) (fn : Func σ) (s : σ) :
    Option (Result σ) :=
  DoWithBackoff fuel MaxRetries fn specZeroDelay s

/-! ## Jittered exponential backoff -/

/-- `rand.Intn(n)`: panics (`none`) when `n <= 0`, otherwise a value of
`[0, n)`. The outcome of the draw is the parameter `u`, reduced into the
range, so that every value of `[0, n)` is the result for some `u`. -/
def Intn (n : Int) (u : Nat) : Option Int :=
  if n ≤ 0 then none else some ((u : Int) % n)

/-- `jitter(i)`; `u1` and `u2` are the outcomes of the two random draws.
Go's `/` on integers truncates toward zero. -/
def jitter (i : Int) (u1 u2 : Nat) : Option Int :=
  let ms := wrap64 (i * 1000)
  let maxJitter := Int.tdiv ms 3
  match Intn (wrap64 (maxJitter + 1)) u1 with
  | none => none
  | some jit =>
    match Intn 2 u2 with
    | none => none
    | some coin =>
      let ms1 := if coin = 1 then wrap64 (ms + jit) else wrap64 (ms - jit)
      let ms2 := if ms1 ≤ 0 then 1 else ms1
      some (wrap64 (ms2 * Millisecond))

/-- `int(math.Pow(2, float64(i)))`. For `0 <= i <= 62` the power is an exact
float64 and converts exactly. For `i < 0` the power is below 1 and the
conversion truncates it to 0. For `i >= 63` the power does not fit an `int`
and Go leaves the result of the conversion to the implementation: it is the
parameter `conv`. -/
def pow2ToInt (conv : Int → Int) (i : Int) : Int :=
  if i < 0 then 0
  else if i ≤ 62 then 2 ^ i.toNat
  else wrap64 (conv i)

/-- `ExponentialJitterBackoff(i)`: `return jitter(int(math.Pow(2, float64(i))))`. -/
def ExponentialJitterBackoff (conv : Int → Int) (i : Int) (u1 u2 : Nat) : Option Int :=
  jitter (pow2ToInt conv i) u1 u2

/-- A duration in whole milliseconds, as `Duration.Milliseconds` computes it. -/
def toMilliseconds (d : Int) : Int := Int.tdiv d Millisecond

/-! ## Reading a trace -/

/-- The invocations of the operation in a trace: attempt number and what the
operation returned. -/
def calls : List Event → List (Int × Bool × error)
  | [] => []
  | Event.call a c e :: t => (a, c, e) :: calls t
  | _ :: t => calls t

/-- The attempt numbers the operation was invoked with, in order. -/
def attempts (tr : List Event) : List Int := (calls tr).map (fun c => c.1)

/-- How many times the operation was invoked. -/
def invocations (tr : List Event) : Nat := (calls tr).length

/-- The attempt numbers `a, a+1, ..., a+n-1`. -/
def attemptsFrom (a : Int) : Nat → List Int
  | 0 => []
  | n + 1 => a :: attemptsFrom (a + 1) n

/-- The timer accepts every delay the strategy produces: the duration handed
to `time.Tick` is positive. -/
def Fires {σ : Type} (backoff : BackoffStrategy σ) : Prop :=
  ∀ (i : Int) (s : σ), 0 < wrap64 ((backoff i s).1 + 1 * Microsecond)

/-- The timer accepts the delays the strategy produces for the retries
`2, ..., k`, the only ones a run that ends at attempt `k` asks for. -/
def FiresThrough {σ : Type} (backoff : BackoffStrategy σ) (k : Int) : Prop :=
  ∀ (i : Int) (s : σ), 2 ≤ i → i ≤ k → 0 < wrap64 ((backoff i s).1 + 1 * Microsecond)

/-! ## The timer, the shape of a trace -/

/-- The duration `DoWithBackoff` hands to `time.Tick` for a delay `d` of the
backoff strategy: `backoff(attempt) + 1*time.Microsecond`. -/
def tickDuration (d : Int) : Int := wrap64 (d + 1 * Microsecond)

/-- The arguments the backoff strategy was called with, in order. -/
def backoffArgs : List Event → List Int
  | [] => []
  | Event.backoff a _ :: t => a :: backoffArgs t
  | _ :: t => backoffArgs t

/-- The delays the backoff strategy returned, in order. -/
def backoffDelays : List Event → List Int
  | [] => []
  | Event.backoff _ d :: t => d :: backoffDelays t
  | _ :: t => backoffDelays t

/-- The durations handed to the timer, in order. -/
def ticks : List Event → List Int
  | [] => []
  | Event.tick d :: t => d :: ticks t
  | _ :: t => ticks t

/-- An event without the values that went through it: which step it is, and
for an invocation or a call of the backoff the attempt number. -/
inductive Tag where
  | call (attempt : Int)
  | backoff (retry : Int)
  | tick
  deriving DecidableEq, Repr

/-- The step an event is. -/
def Event.tag : Event → Tag
  | Event.call a _ _ => Tag.call a
  | Event.backoff a _ => Tag.backoff a
  | Event.tick _ => Tag.tick

/-- The steps of `n` retries that start with the attempt number `a`: for each,
the backoff called with the attempt number, the timer, the invocation. -/
def retrySteps (a : Int) : Nat → List Tag
  | 0 => []
  | n + 1 => Tag.backoff a :: Tag.tick :: Tag.call a :: retrySteps (a + 1) n

/-- The invocations follow each other as the loop counts: the first has the
attempt number `a`, every invocation but the last returned `(true, non-nil
error)`, and the next one has the attempt number `attempt + 1` (an `int`
addition). There is at least one invocation. -/
def chained (a : Int) : List (Int × Bool × error) → Bool
  | [] => false
  | [c] => decide (c.1 = a)
  | c :: c1 :: t =>
    decide (c.1 = a) && c.2.1 && decide (c.2.2 ≠ none) && chained (wrap64 (a + 1)) (c1 :: t)

/-- An operation whose result is a function of the attempt number alone. -/
def pureFunc {σ : Type} (f : Int → Bool × error) : Func σ := fun a s => (f a, s)

/-- The argument `jitter(i)` passes to its first `rand.Intn`:
`maxJitter + 1` with `maxJitter := ms / 3` and `ms := i * 1000`. -/
def jitterBound (i : Int) : Int := wrap64 (Int.tdiv (wrap64 (i * 1000)) 3 + 1)

/-- The value of `ms` in `jitter(i)` after the jitter amount was added or
subtracted and before the clamp `if ms <= 0`. -/
def jittered (i : Int) (u1 u2 : Nat) : Option Int :=
  let ms := wrap64 (i * 1000)
  match Intn (jitterBound i) u1 with
  | none => none
  | some jit =>
    match Intn 2 u2 with
    | none => none
    | some coin => some (if coin = 1 then wrap64 (ms + jit) else wrap64 (ms - jit))

/-- The clamp of `jitter`: `if ms <= 0 { ms = 1 }`. -/
def clamp (ms : Int) : Int := if ms ≤ 0 then 1 else ms

/-- A set of states that the operation and the backoff strategy do not leave:
the states a run can be in, when it starts in one of them. -/
def Closed {σ : Type} (I : σ → Prop) (fn : Func σ) (backoff : BackoffStrategy σ) : Prop :=
  (∀ (a : Int) (s : σ), I s → I (fn a s).2) ∧ (∀ (i : Int) (s : σ), I s → I (backoff i s).2)

/-- In the states of `I`, the timer accepts the delays the strategy produces
for the retries `2, ..., k`: the duration handed to `time.Tick` is positive. -/
def FiresThroughOn {σ : Type} (I : σ → Prop) (backoff : BackoffStrategy σ) (k : Int) : Prop :=
  ∀ (i : Int) (s : σ), I s → 2 ≤ i → i ≤ k → 0 < wrap64 ((backoff i s).1 + 1 * Microsecond)

/-! ## Concrete operations and strategies -/

/-- An operation that asks for a retry with an error on every attempt and
counts its invocations in its state. -/
def alwaysRetry : Func Nat := fun _ n => ((true, errorsNew 1), n + 1)

/-- An operation that asks for a retry with an error on the attempts below
`k` and from attempt `k` on returns `(false, e)`; it counts its invocations
in its state. -/
def declineAt (k : Int) (e : error) : Func Nat := fun a n =>
  if a < k then ((true, errorsNew 1), n + 1) else ((false, e), n + 1)

/-- The run of `alwaysRetry` under `Do` with budget 3: three invocations, two
delays of one microsecond, then the sentinel. -/
def exhaustedRun : Result Nat :=
  { outcome := Outcome.returned errMaxRetriesReached
    state := 3
    trace := [Event.call 1 true (errorsNew 1), Event.backoff 2 0, Event.tick 1000,
      Event.call 2 true (errorsNew 1), Event.backoff 3 0, Event.tick 1000,
      Event.call 3 true (errorsNew 1)] }

/-- A backoff strategy that returns minus one second. -/
def negativeBackoff : BackoffStrategy Nat := pureBackoff (fun _ => wrap64 (-1 * Second))

/-- A backoff strategy that returns minus one microsecond. -/
def minusMicrosecond : BackoffStrategy Nat := pureBackoff (fun _ => wrap64 (-1 * Microsecond))

/-- A backoff strategy that returns one second. -/
def oneSecond : BackoffStrategy Nat := pureBackoff (fun _ => wrap64 (1 * Second))

/-- The operation that returns `(true, err)` whatever the attempt number, as a
function of the attempt number. -/
def alwaysRetryPure : Func Nat := pureFunc (fun _ => (true, errorsNew 1))

/-- An operation that asks for a retry with an error while the attempt number
is positive and returns `(false, nil)` once it is not. -/
def retryWhilePositive : Func Nat := fun a n =>
  if 0 < a then ((true, errorsNew 1), n + 1) else ((false, none), n + 1)

/-! ## Machine arithmetic -/

theorem wrap64_eq_self {x : Int} (h1 : minInt ≤ x) (h2 : x ≤ maxInt) : wrap64 x = x := by
  unfold wrap64 minInt maxInt at *
  omega

theorem wrap64_le_maxInt (x : Int) : wrap64 x ≤ maxInt := by
  unfold wrap64 maxInt
  omega

theorem minInt_le_wrap64 (x : Int) : minInt ≤ wrap64 x := by
  unfold wrap64 minInt
  omega

/-! ## One iteration of the loop -/

theorem loop_zero {σ : Type} (N : Int) (fn : Func σ) (b : BackoffStrategy σ) (a : Int) (s : σ) :
    loop N fn b 0 a s = none := rfl

theorem loop_stop {σ : Type} (N : Int) (fn : Func σ) (b : BackoffStrategy σ) (fuel : Nat)
    (a : Int) (s : σ) (h : (fn a s).1.1 = false ∨ (fn a s).1.2 = none) :
    loop N fn b (fuel + 1) a s =
      some ⟨Outcome.returned (fn a s).1.2, (fn a s).2,
        [Event.call a (fn a s).1.1 (fn a s).1.2]⟩ := by
  have hc : (!(fn a s).1.1 || (fn a s).1.2 == none) = true := by
    rcases h with h | h <;> simp [h]
  simp only [loop, hc, if_true]

theorem loop_exhausted {σ : Type} (N : Int) (fn : Func σ) (b : BackoffStrategy σ) (fuel : Nat)
    (a : Int) (s : σ) (hc : (fn a s).1.1 = true) (he : (fn a s).1.2 ≠ none)
    (hN : N < wrap64 (a + 1)) :
    loop N fn b (fuel + 1) a s =
      some ⟨Outcome.returned errMaxRetriesReached, (fn a s).2,
        [Event.call a (fn a s).1.1 (fn a s).1.2]⟩ := by
  have hc2 : (!(fn a s).1.1 || (fn a s).1.2 == none) = false := by
    simp [hc, he]
  simp only [loop, hc2, gt_iff_lt, hN, if_true]
  simp

theorem loop_blocked {σ : Type} (N : Int) (fn : Func σ) (b : BackoffStrategy σ) (fuel : Nat)
    (a : Int) (s : σ) (hc : (fn a s).1.1 = true) (he : (fn a s).1.2 ≠ none)
    (hN : wrap64 (a + 1) ≤ N)
    (hd : wrap64 ((b (wrap64 (a + 1)) (fn a s).2).1 + 1 * Microsecond) ≤ 0) :
    loop N fn b (fuel + 1) a s =
      some ⟨Outcome.blocked, (b (wrap64 (a + 1)) (fn a s).2).2,
        [Event.call a (fn a s).1.1 (fn a s).1.2,
         Event.backoff (wrap64 (a + 1)) (b (wrap64 (a + 1)) (fn a s).2).1,
         Event.tick (wrap64 ((b (wrap64 (a + 1)) (fn a s).2).1 + 1 * Microsecond))]⟩ := by
  have hc2 : (!(fn a s).1.1 || (fn a s).1.2 == none) = false := by
    simp [hc, he]
  have hN2 : ¬ N < wrap64 (a + 1) := by omega
  simp only [loop, hc2, gt_iff_lt, hN2, hd, if_true, if_false]
  simp

theorem loop_retry {σ : Type} (N : Int) (fn : Func σ) (b : BackoffStrategy σ) (fuel : Nat)
    (a : Int) (s : σ) (hc : (fn a s).1.1 = true) (he : (fn a s).1.2 ≠ none)
    (hN : wrap64 (a + 1) ≤ N)
    (hd : 0 < wrap64 ((b (wrap64 (a + 1)) (fn a s).2).1 + 1 * Microsecond)) :
    loop N fn b (fuel + 1) a s =
      (loop N fn b fuel (wrap64 (a + 1)) (b (wrap64 (a + 1)) (fn a s).2).2).map
        (Result.prepend
          [Event.call a (fn a s).1.1 (fn a s).1.2,
           Event.backoff (wrap64 (a + 1)) (b (wrap64 (a + 1)) (fn a s).2).1,
           Event.tick (wrap64 ((b (wrap64 (a + 1)) (fn a s).2).1 + 1 * Microsecond))]) := by
  have hc2 : (!(fn a s).1.1 || (fn a s).1.2 == none) = false := by
    simp [hc, he]
  have hN2 : ¬ N < wrap64 (a + 1) := by omega
  have hd2 : ¬ wrap64 ((b (wrap64 (a + 1)) (fn a s).2).1 + 1 * Microsecond) ≤ 0 := by omega
  simp only [loop, hc2, gt_iff_lt, hN2, hd2, if_true, if_false]
  simp

/-! ## Traces -/

theorem attempts_call_cons (a : Int) (c : Bool) (e : error) (t : List Event) :
    attempts (Event.call a c e :: t) = a :: attempts t := rfl

theorem attempts_backoff_cons (a d : Int) (t : List Event) :
    attempts (Event.backoff a d :: t) = attempts t := rfl

theorem attempts_tick_cons (d : Int) (t : List Event) :
    attempts (Event.tick d :: t) = attempts t := rfl

theorem calls_append (t1 t2 : List Event) : calls (t1 ++ t2) = calls t1 ++ calls t2 := by
  induction t1 with
  | nil => rfl
  | cons e t ih =>
    cases e <;> simp [calls, ih]

theorem attempts_append (t1 t2 : List Event) :
    attempts (t1 ++ t2) = attempts t1 ++ attempts t2 := by
  simp [attempts, calls_append]

theorem invocations_eq_length_attempts (t : List Event) :
    invocations t = (attempts t).length := by
  simp [invocations, attempts]

theorem length_attemptsFrom (a : Int) (n : Nat) : (attemptsFrom a n).length = n := by
  induction n generalizing a with
  | zero => rfl
  | succ n ih => simp [attemptsFrom, ih]

theorem attemptsFrom_succ_last (a : Int) (n : Nat) :
    attemptsFrom a (n + 1) = attemptsFrom a n ++ [a + (n : Int)] := by
  induction n generalizing a with
  | zero => simp [attemptsFrom]
  | succ n ih =>
    rw [attemptsFrom, ih (a + 1)]
    simp only [attemptsFrom, List.cons_append, Nat.cast_add, Nat.cast_one]
    congr 3
    omega

theorem prepend_nil {σ : Type} (r : Result σ) : Result.prepend [] r = r := rfl

theorem prepend_prepend {σ : Type} (t1 t2 : List Event) (r : Result σ) :
    Result.prepend t1 (Result.prepend t2 r) = Result.prepend (t1 ++ t2) r := by
  simp [Result.prepend]

theorem map_prepend_map_prepend {σ : Type} (t1 t2 : List Event) (o : Option (Result σ)) :
    (o.map (Result.prepend t2)).map (Result.prepend t1) = o.map (Result.prepend (t1 ++ t2)) := by
  cases o with
  | none => rfl
  | some r => simp [prepend_prepend]

/-! ## Runs of retried attempts -/

/-- While the operation asks for a retry with an error on every attempt below
`k`, and `k` is within the budget, the loop entered at attempt `a` reaches
attempt `k` after invoking the operation with `a, ..., k-1`. -/
theorem loop_reaches {σ : Type} (N : Int) (fn : Func σ) (b : BackoffStrategy σ)
    (k : Int) (hb : FiresThrough b k) (hkN : k ≤ N) (hk : k ≤ maxInt)
    (hretry : ∀ (a : Int) (s : σ), 1 ≤ a → a < k →
      (fn a s).1.1 = true ∧ (fn a s).1.2 ≠ none) :
    ∀ (n : Nat) (a : Int) (s : σ) (fuel : Nat), 1 ≤ a → a + (n : Int) = k →
      ∃ (s1 : σ) (tr : List Event), attempts tr = attemptsFrom a n ∧
        loop N fn b (fuel + n) a s = (loop N fn b fuel k s1).map (Result.prepend tr) := by
  intro n
  induction n with
  | zero =>
    intro a s fuel _ hak
    have : a = k := by simpa using hak
    subst this
    refine ⟨s, [], rfl, ?_⟩
    show loop N fn b fuel a s = _
    cases loop N fn b fuel a s <;> simp [prepend_nil]
  | succ n ih =>
    intro a s fuel ha hak
    have hlt : a < k := by push_cast at hak; omega
    obtain ⟨hc, he⟩ := hretry a s ha hlt
    have hw : wrap64 (a + 1) = a + 1 :=
      wrap64_eq_self (by unfold minInt; omega) (by omega)
    have hstep := loop_retry N fn b (fuel + n) a s hc he (by rw [hw]; omega)
      (by rw [hw]; exact hb _ _ (by omega) (by omega))
    obtain ⟨s1, tr, htr, hloop⟩ :=
      ih (a + 1) (b (wrap64 (a + 1)) (fn a s).2).2 fuel (by omega) (by push_cast at hak; omega)
    rw [hw] at hstep
    rw [hw] at hloop
    refine ⟨s1, [Event.call a (fn a s).1.1 (fn a s).1.2,
      Event.backoff (a + 1) (b (a + 1) (fn a s).2).1,
      Event.tick (wrap64 ((b (a + 1) (fn a s).2).1 + 1 * Microsecond))] ++ tr, ?_, ?_⟩
    · rw [attempts_append, htr]
      rfl
    · rw [show fuel + (n + 1) = fuel + n + 1 from rfl, hstep, hloop, map_prepend_map_prepend]

theorem fires_DefaultBackoff {σ : Type} : Fires (pureBackoff DefaultBackoff : BackoffStrategy σ) := by
  intro i s
  simp only [pureBackoff, DefaultBackoff]
  decide

theorem Fires.firesThrough {σ : Type} {b : BackoffStrategy σ} (h : Fires b) (k : Int) :
    FiresThrough b k := fun i s _ _ => h i s

/-- More fuel does not change a finished run. -/
theorem loop_fuel_mono {σ : Type} (N : Int) (fn : Func σ) (b : BackoffStrategy σ) :
    ∀ (fuel m : Nat) (a : Int) (s : σ) (r : Result σ),
      loop N fn b fuel a s = some r → loop N fn b (fuel + m) a s = some r := by
  intro fuel
  induction fuel with
  | zero => intro m a s r h; simp [loop] at h
  | succ fuel ih =>
    intro m a s r h
    rw [show fuel + 1 + m = (fuel + m) + 1 by omega]
    by_cases hstop : (fn a s).1.1 = false ∨ (fn a s).1.2 = none
    · rw [loop_stop N fn b _ a s hstop] at h ⊢
      exact h
    · have hc : (fn a s).1.1 = true := by
        cases hx : (fn a s).1.1
        · exact absurd (Or.inl hx) hstop
        · rfl
      have he : (fn a s).1.2 ≠ none := fun hx => hstop (Or.inr hx)
      by_cases hN : N < wrap64 (a + 1)
      · rw [loop_exhausted N fn b _ a s hc he hN] at h ⊢
        exact h
      · have hN2 : wrap64 (a + 1) ≤ N := by omega
        by_cases hd : wrap64 ((b (wrap64 (a + 1)) (fn a s).2).1 + 1 * Microsecond) ≤ 0
        · rw [loop_blocked N fn b _ a s hc he hN2 hd] at h ⊢
          exact h
        · have hd2 : 0 < wrap64 ((b (wrap64 (a + 1)) (fn a s).2).1 + 1 * Microsecond) := by
            omega
          rw [loop_retry N fn b _ a s hc he hN2 hd2] at h ⊢
          cases hrec : loop N fn b fuel (wrap64 (a + 1)) (b (wrap64 (a + 1)) (fn a s).2).2 with
          | none => rw [hrec] at h; simp at h
          | some r1 =>
            rw [hrec] at h
            rw [ih m _ _ r1 hrec]
            exact h

/-- The loop entered at attempt 1 with an operation that is retried on the
attempts below `k` reaches attempt `k` with `1, ..., k-1` invoked. -/
theorem DoWithBackoff_reaches {σ : Type} (N : Int) (k : Nat) (fn : Func σ)
    (b : BackoffStrategy σ) (s : σ) (fuel : Nat)
    (hN : N ≤ maxInt) (hk1 : 1 ≤ k) (hkN : (k : Int) ≤ N)
    (hretry : ∀ (a : Int) (s : σ), 1 ≤ a → a < (k : Int) →
      (fn a s).1.1 = true ∧ (fn a s).1.2 ≠ none)
    (hb : FiresThrough b k) (hfuel : k ≤ fuel) :
    ∃ (s1 : σ) (tr : List Event) (f : Nat), attempts tr = attemptsFrom 1 (k - 1) ∧
      DoWithBackoff fuel N fn b s = (loop N fn b (f + 1) k s1).map (Result.prepend tr) := by
  obtain ⟨s1, tr, htr, hloop⟩ :=
    loop_reaches N fn b k hb hkN (by omega) hretry (k - 1) 1 s (fuel - k + 1) (le_refl 1)
      (by omega)
  refine ⟨s1, tr, fuel - k, htr, ?_⟩
  unfold DoWithBackoff
  rw [← hloop]
  congr 1
  omega

theorem attempts_prefix_then_call (tr : List Event) (k : Nat) (hk1 : 1 ≤ k) (c : Bool)
    (e : error) (htr : attempts tr = attemptsFrom 1 (k - 1)) :
    attempts (tr ++ [Event.call (k : Int) c e]) = attemptsFrom 1 k := by
  rw [attempts_append, htr]
  obtain ⟨m, rfl⟩ : ∃ m, k = m + 1 := ⟨k - 1, by omega⟩
  rw [attemptsFrom_succ_last]
  simp [attempts, calls]
  omega

/-- A run whose attempts below `k` are retried and whose attempt `k` ends the
loop (no retry wanted, or no error) returns what attempt `k` returned, after
exactly `k` invocations. -/
theorem DoWithBackoff_stops_at {σ : Type} (N : Int) (k : Nat) (fn : Func σ)
    (b : BackoffStrategy σ) (s : σ) (fuel : Nat)
    (hN : N ≤ maxInt) (hk1 : 1 ≤ k) (hkN : (k : Int) ≤ N)
    (hretry : ∀ (a : Int) (s : σ), 1 ≤ a → a < (k : Int) →
      (fn a s).1.1 = true ∧ (fn a s).1.2 ≠ none)
    (hstop : ∀ s : σ, (fn k s).1.1 = false ∨ (fn k s).1.2 = none)
    (hb : FiresThrough b k) (hfuel : k ≤ fuel) :
    ∃ (r : Result σ) (s1 : σ), DoWithBackoff fuel N fn b s = some r ∧
      r.outcome = Outcome.returned (fn k s1).1.2 ∧
      invocations r.trace = k ∧
      attempts r.trace = attemptsFrom 1 k ∧
      (calls r.trace).getLast? = some ((k : Int), (fn k s1).1.1, (fn k s1).1.2) := by
  obtain ⟨s1, tr, f, htr, hrun⟩ := DoWithBackoff_reaches N k fn b s fuel hN hk1 hkN hretry hb hfuel
  rw [loop_stop N fn b f k s1 (hstop s1)] at hrun
  have hatt := attempts_prefix_then_call tr k hk1 (fn k s1).1.1 (fn k s1).1.2 htr
  refine ⟨_, s1, hrun, rfl, ?_, hatt, ?_⟩
  · rw [invocations_eq_length_attempts]
    show (attempts (tr ++ [Event.call (k : Int) (fn k s1).1.1 (fn k s1).1.2])).length = k
    rw [hatt, length_attemptsFrom]
  · show (calls (tr ++ [Event.call (k : Int) (fn k s1).1.1 (fn k s1).1.2])).getLast? = _
    rw [calls_append]
    simp [calls]

/-- A run whose every attempt up to the budget `n` is retried returns the
sentinel after exactly `n` invocations. -/
theorem DoWithBackoff_exhausts_at {σ : Type} (n : Nat) (fn : Func σ)
    (b : BackoffStrategy σ) (s : σ) (fuel : Nat)
    (hn1 : 1 ≤ n) (hn2 : (n : Int) < maxInt)
    (hretry : ∀ (a : Int) (s : σ), 1 ≤ a → a ≤ (n : Int) →
      (fn a s).1.1 = true ∧ (fn a s).1.2 ≠ none)
    (hb : FiresThrough b n) (hfuel : n ≤ fuel) :
    ∃ r : Result σ, DoWithBackoff fuel n fn b s = some r ∧
      r.outcome = Outcome.returned errMaxRetriesReached ∧
      invocations r.trace = n ∧
      attempts r.trace = attemptsFrom 1 n := by
  obtain ⟨s1, tr, f, htr, hrun⟩ := DoWithBackoff_reaches n n fn b s fuel (by omega) hn1
    (le_refl _) (fun a s h1 h2 => hretry a s h1 (by omega)) hb hfuel
  obtain ⟨hc, he⟩ := hretry n s1 (by omega) (le_refl _)
  have hw : wrap64 ((n : Int) + 1) = n + 1 :=
    wrap64_eq_self (by unfold minInt; omega) (by omega)
  rw [loop_exhausted n fn b f n s1 hc he (by rw [hw]; omega)] at hrun
  have hatt := attempts_prefix_then_call tr n hn1 (fn n s1).1.1 (fn n s1).1.2 htr
  refine ⟨_, hrun, rfl, ?_, hatt⟩
  rw [invocations_eq_length_attempts]
  show (attempts (tr ++ [Event.call (n : Int) (fn n s1).1.1 (fn n s1).1.2])).length = n
  rw [hatt, length_attemptsFrom]

/-- With the largest `int` as budget the incremented counter never exceeds the
budget (it wraps around): an operation that is always retried is invoked
forever. -/
theorem loop_maxInt_never_returns {σ : Type} (fn : Func σ) (b : BackoffStrategy σ)
    (hretry : ∀ (a : Int) (s : σ), (fn a s).1.1 = true ∧ (fn a s).1.2 ≠ none)
    (hb : Fires b) :
    ∀ (fuel : Nat) (a : Int) (s : σ), loop maxInt fn b fuel a s = none := by
  intro fuel
  induction fuel with
  | zero => intro a s; rfl
  | succ fuel ih =>
    intro a s
    obtain ⟨hc, he⟩ := hretry a s
    rw [loop_retry maxInt fn b fuel a s hc he (wrap64_le_maxInt _) (hb _ _), ih]
    rfl

theorem alwaysRetry_retries (a : Int) (s : Nat) :
    (alwaysRetry a s).1.1 = true ∧ (alwaysRetry a s).1.2 ≠ none := by
  simp [alwaysRetry, errorsNew]

/-! ## The sentinel -/

/-- C4: `IsMaxRetries e` is true if and only if `e` is the sentinel
`errMaxRetriesReached` itself; it is false for nil, and false for every other
error value whatever its message, also when the message is
"exceeded retry limit". -/
theorem IsMaxRetries_iff_sentinel :
    (∀ e : error, IsMaxRetries e = true ↔ e = errMaxRetriesReached) ∧
    IsMaxRetries none = false ∧
    (∀ (message : ErrValue → String) (v : ErrValue),
      some v ≠ errMaxRetriesReached → message v = "exceeded retry limit" →
        IsMaxRetries (some v) = false) := by
  refine ⟨fun e => by simp [IsMaxRetries], by decide, ?_⟩
  intro _ v hv _
  simp [IsMaxRetries, hv]

/-- Witness of C4: a second error made by `errors.New` with the text of the
sentinel is not the sentinel. -/
theorem IsMaxRetries_iff_sentinel_witness : IsMaxRetries (errorsNew 1) = false :=
  IsMaxRetries_iff_sentinel.2.2 (fun _ => "exceeded retry limit") ⟨errorStringPtr, 1⟩
    (by decide) rfl

/-! ## The zero-delay strategy and `Do` -/

/-- C9: `DefaultBackoff` returns the zero duration for every attempt number,
zero and negative ones included. -/
theorem DefaultBackoff_eq_zero (i : Int) : DefaultBackoff i = 0 := by
  unfold DefaultBackoff
  decide

theorem pureBackoff_DefaultBackoff_eq_specZeroDelay {σ : Type} :
    (pureBackoff DefaultBackoff : BackoffStrategy σ) = specZeroDelay := by
  funext i s
  simp only [pureBackoff, specZeroDelay, DefaultBackoff]
  congr 1

/-- C10: `Do` is `DoWithBackoff` with the zero-delay strategy: for every
operation and budget the whole run (outcome, final state of the operation and
trace of invocations) of `Do fn` is that of `DoWithBackoff fn DefaultBackoff`,
and that of the loop run with the zero-delay strategy of the specification. -/
theorem Do_eq_DoWithBackoff_DefaultBackoff {σ : Type} (fuel : Nat) (N : Int) (fn : Func σ)
    (s : σ) :
    Do fuel N fn s = DoWithBackoff fuel N fn (pureBackoff DefaultBackoff) s ∧
    Do fuel N fn s = specRunDefault fuel N fn s := by
  refine ⟨rfl, ?_⟩
  unfold Do specRunDefault
  rw [pureBackoff_DefaultBackoff_eq_specZeroDelay]

/-! ## What a run returns -/

/-- With a budget below `maxInt`, the loop entered at an attempt `a` with
`1 ≤ a < maxInt` finishes within `max 1 (N + 1 - a)` iterations. -/
theorem loop_terminates {σ : Type} (N : Int) (fn : Func σ) (b : BackoffStrategy σ)
    (hN : N < maxInt) :
    ∀ (fuel : Nat) (a : Int) (s : σ), 1 ≤ a → a < maxInt → 1 ≤ fuel →
      N + 1 - a ≤ (fuel : Int) →
      ∃ r : Result σ, loop N fn b fuel a s = some r := by
  intro fuel
  induction fuel with
  | zero => intro a s _ _ h; omega
  | succ fuel ih =>
    intro a s ha ha2 _ hfuel
    have hw : wrap64 (a + 1) = a + 1 :=
      wrap64_eq_self (by unfold minInt; omega) (by omega)
    by_cases hstop : (fn a s).1.1 = false ∨ (fn a s).1.2 = none
    · exact ⟨_, loop_stop N fn b fuel a s hstop⟩
    · have hc : (fn a s).1.1 = true := by
        cases hx : (fn a s).1.1
        · exact absurd (Or.inl hx) hstop
        · rfl
      have he : (fn a s).1.2 ≠ none := fun hx => hstop (Or.inr hx)
      by_cases hex : N < wrap64 (a + 1)
      · exact ⟨_, loop_exhausted N fn b fuel a s hc he hex⟩
      · have hle : wrap64 (a + 1) ≤ N := by omega
        by_cases hd : wrap64 ((b (wrap64 (a + 1)) (fn a s).2).1 + 1 * Microsecond) ≤ 0
        · exact ⟨_, loop_blocked N fn b fuel a s hc he hle hd⟩
        · have hd2 : 0 < wrap64 ((b (wrap64 (a + 1)) (fn a s).2).1 + 1 * Microsecond) := by
            omega
          have haN : a + 1 ≤ N := by omega
          rw [loop_retry N fn b fuel a s hc he hle hd2, hw]
          obtain ⟨r, hr⟩ := ih (a + 1) (b (a + 1) (fn a s).2).2 (by omega) (by omega)
            (by push_cast at hfuel; omega) (by push_cast at hfuel; omega)
          exact ⟨_, by rw [hr]; rfl⟩

/-- A run that returns ends with an invocation of the operation, and it
returns either what that invocation returned (which then declined the retry
or had no error) or the sentinel, after a retryable failure whose
incremented attempt number exceeds the budget. -/
theorem loop_returned {σ : Type} (N : Int) (fn : Func σ) (b : BackoffStrategy σ) :
    ∀ (fuel : Nat) (a : Int) (s : σ) (r : Result σ) (e : error),
      loop N fn b fuel a s = some r → r.outcome = Outcome.returned e →
      ∃ (a1 : Int) (c : Bool) (e1 : error),
        r.trace.getLast? = some (Event.call a1 c e1) ∧
        (calls r.trace).getLast? = some (a1, c, e1) ∧
        ((e = e1 ∧ (c = false ∨ e1 = none)) ∨
         (e = errMaxRetriesReached ∧ c = true ∧ e1 ≠ none ∧ N < wrap64 (a1 + 1))) := by
  intro fuel
  induction fuel with
  | zero => intro a s r e h; simp [loop] at h
  | succ fuel ih =>
    intro a s r e h hout
    by_cases hstop : (fn a s).1.1 = false ∨ (fn a s).1.2 = none
    · rw [loop_stop N fn b fuel a s hstop] at h
      cases h
      refine ⟨a, (fn a s).1.1, (fn a s).1.2, rfl, rfl, Or.inl ⟨?_, hstop⟩⟩
      simpa using hout.symm
    · have hc : (fn a s).1.1 = true := by
        cases hx : (fn a s).1.1
        · exact absurd (Or.inl hx) hstop
        · rfl
      have he : (fn a s).1.2 ≠ none := fun hx => hstop (Or.inr hx)
      by_cases hex : N < wrap64 (a + 1)
      · rw [loop_exhausted N fn b fuel a s hc he hex] at h
        cases h
        refine ⟨a, (fn a s).1.1, (fn a s).1.2, rfl, rfl, Or.inr ⟨?_, hc, he, hex⟩⟩
        simpa using hout.symm
      · have hle : wrap64 (a + 1) ≤ N := by omega
        by_cases hd : wrap64 ((b (wrap64 (a + 1)) (fn a s).2).1 + 1 * Microsecond) ≤ 0
        · rw [loop_blocked N fn b fuel a s hc he hle hd] at h
          cases h
          simp at hout
        · have hd2 : 0 < wrap64 ((b (wrap64 (a + 1)) (fn a s).2).1 + 1 * Microsecond) := by
            omega
          rw [loop_retry N fn b fuel a s hc he hle hd2] at h
          cases hrec : loop N fn b fuel (wrap64 (a + 1)) (b (wrap64 (a + 1)) (fn a s).2).2 with
          | none => rw [hrec] at h; simp at h
          | some r1 =>
            rw [hrec] at h
            simp only [Option.map_some', Option.some.injEq] at h
            subst h
            obtain ⟨a1, c, e1, hl1, hl2, hcase⟩ := ih _ _ r1 e hrec hout
            refine ⟨a1, c, e1, ?_, ?_, hcase⟩
            · show (_ ++ r1.trace).getLast? = _
              rw [List.getLast?_append, hl1]
              rfl
            · show (calls (_ ++ r1.trace)).getLast? = _
              rw [calls_append, List.getLast?_append, hl2]
              rfl

/-- C5, as amended: for every operation, backoff strategy and budget, a run
with a budget below `maxInt` and enough fuel finishes; a run that returns
ends with an invocation of the operation (the operation is not invoked
again), and the value returned is nil, the error of that last invocation, or
the sentinel; and when it is the sentinel while the last invocation did not
itself return the sentinel, the last invocation was a retryable failure and
the incremented attempt counter exceeds the budget. -/
theorem DoWithBackoff_result_classified {σ : Type} (N : Int) (fn : Func σ)
    (b : BackoffStrategy σ) (s : σ) (fuel : Nat) :
    (N < maxInt → 1 ≤ fuel → N ≤ (fuel : Int) →
      ∃ r : Result σ, DoWithBackoff fuel N fn b s = some r) ∧
    (∀ (r : Result σ) (e : error),
      DoWithBackoff fuel N fn b s = some r → r.outcome = Outcome.returned e →
      ∃ (a : Int) (c : Bool) (e1 : error),
        r.trace.getLast? = some (Event.call a c e1) ∧
        (calls r.trace).getLast? = some (a, c, e1) ∧
        (e = none ∨ e = e1 ∨ e = errMaxRetriesReached) ∧
        ((e = e1 ∧ (c = false ∨ e1 = none)) ∨
         (e = errMaxRetriesReached ∧ c = true ∧ e1 ≠ none ∧ N < wrap64 (a + 1))) ∧
        (e = errMaxRetriesReached → e1 ≠ errMaxRetriesReached →
          c = true ∧ e1 ≠ none ∧ N < wrap64 (a + 1))) := by
  constructor
  · intro hN hf1 hf2
    exact loop_terminates N fn b hN fuel 1 s (le_refl 1) (by unfold maxInt; omega) hf1
      (by omega)
  · intro r e hrun hout
    obtain ⟨a, c, e1, hl1, hl2, hcase⟩ := loop_returned N fn b fuel 1 s r e hrun hout
    refine ⟨a, c, e1, hl1, hl2, ?_, hcase, ?_⟩
    · rcases hcase with ⟨h, _⟩ | ⟨h, _⟩
      · exact Or.inr (Or.inl h)
      · exact Or.inr (Or.inr h)
    · intro he hne
      rcases hcase with ⟨h, _⟩ | ⟨_, h⟩
      · exact absurd (h ▸ he) hne
      · exact h

/-- Witness of C5: budget 3 and an operation that always returns
`(true, err)`; the run returns the sentinel, its last event is the third
invocation, and the incremented counter 4 exceeds the budget. -/
theorem DoWithBackoff_result_classified_witness :
    (∃ r : Result Nat, DoWithBackoff 3 3 alwaysRetry (pureBackoff DefaultBackoff) 0 = some r) ∧
    (∃ (a : Int) (c : Bool) (e1 : error),
        exhaustedRun.trace.getLast? = some (Event.call a c e1) ∧
        (calls exhaustedRun.trace).getLast? = some (a, c, e1) ∧
        (errMaxRetriesReached = none ∨ errMaxRetriesReached = e1 ∨
          errMaxRetriesReached = errMaxRetriesReached) ∧
        ((errMaxRetriesReached = e1 ∧ (c = false ∨ e1 = none)) ∨
         (errMaxRetriesReached = errMaxRetriesReached ∧ c = true ∧ e1 ≠ none ∧
           3 < wrap64 (a + 1))) ∧
        (errMaxRetriesReached = errMaxRetriesReached → e1 ≠ errMaxRetriesReached →
          c = true ∧ e1 ≠ none ∧ 3 < wrap64 (a + 1))) :=
  ⟨(DoWithBackoff_result_classified 3 alwaysRetry (pureBackoff DefaultBackoff) 0 3).1
      (by decide) (by decide) (by decide),
   (DoWithBackoff_result_classified 3 alwaysRetry (pureBackoff DefaultBackoff) 0 3).2
      exhaustedRun errMaxRetriesReached rfl rfl⟩

/-- Counterexample to C5 as stated: with budget 10, an operation that returns
`(false, errMaxRetriesReached)` on attempt 1 (the sentinel it got from a run of
its own) makes the run return the sentinel although the attempt counter was
never incremented, let alone beyond the budget. -/
theorem DoWithBackoff_result_classified_counterexample :
    (Do 1 10 (declineAt 1 errMaxRetriesReached) 0).map (fun r => (r.outcome, r.trace))
        = some (Outcome.returned errMaxRetriesReached,
            [Event.call 1 false errMaxRetriesReached]) ∧
    ¬ (10 < wrap64 (1 + 1)) := by
  decide

/-! ## Jitter -/

/-- Largest number of seconds for which `jitter` stays within `int64`
nanoseconds: `(1000 x + 1000 x / 3) * 10^6 ≤ maxInt` exactly when
`x ≤ 6917529027`. -/
theorem jitter_of_small (x : Int) (u1 u2 : Nat) (h1 : 1 ≤ x) (h2 : x ≤ 6917529027) :
    ∃ m : Int, jitter x u1 u2 = some (m * Millisecond) ∧
      x * 1000 - x * 1000 / 3 ≤ m ∧ m ≤ x * 1000 + x * 1000 / 3 ∧ 0 < m := by
  have hms : wrap64 (x * 1000) = x * 1000 :=
    wrap64_eq_self (by unfold minInt; omega) (by unfold maxInt; omega)
  have hdiv : Int.tdiv (x * 1000) 3 = x * 1000 / 3 :=
    Int.tdiv_eq_ediv (by omega) (by omega)
  have hmax : wrap64 (x * 1000 / 3 + 1) = x * 1000 / 3 + 1 :=
    wrap64_eq_self (by unfold minInt; omega) (by unfold maxInt; omega)
  have hpos : 0 < x * 1000 / 3 + 1 := by omega
  have hj0 : 0 ≤ (u1 : Int) % (x * 1000 / 3 + 1) := Int.emod_nonneg _ (by omega)
  have hj1 : (u1 : Int) % (x * 1000 / 3 + 1) < x * 1000 / 3 + 1 := Int.emod_lt_of_pos _ hpos
  generalize hj : (u1 : Int) % (x * 1000 / 3 + 1) = j at hj0 hj1
  have hadd : wrap64 (x * 1000 + j) = x * 1000 + j :=
    wrap64_eq_self (by unfold minInt; omega) (by unfold maxInt; omega)
  have hsub : wrap64 (x * 1000 - j) = x * 1000 - j :=
    wrap64_eq_self (by unfold minInt; omega) (by unfold maxInt; omega)
  have hI1 : Intn (x * 1000 / 3 + 1) u1 = some j := by
    simp only [Intn, hj]
    rw [if_neg (by omega)]
  have hI2 : Intn 2 u2 = some ((u2 : Int) % 2) := by
    simp [Intn]
  by_cases hcoin : (u2 : Int) % 2 = 1
  · refine ⟨x * 1000 + j, ?_, by omega, by omega, by omega⟩
    have hns : wrap64 ((x * 1000 + j) * Millisecond) = (x * 1000 + j) * Millisecond :=
      wrap64_eq_self (by unfold minInt Millisecond; omega) (by unfold maxInt Millisecond; omega)
    simp only [jitter, hms, hdiv, hmax, hI1, hI2, hcoin, if_true, hadd]
    rw [if_neg (by omega), hns]
  · refine ⟨x * 1000 - j, ?_, by omega, by omega, by omega⟩
    have hns : wrap64 ((x * 1000 - j) * Millisecond) = (x * 1000 - j) * Millisecond :=
      wrap64_eq_self (by unfold minInt Millisecond; omega) (by unfold maxInt Millisecond; omega)
    simp only [jitter, hms, hdiv, hmax, hI1, hI2, hcoin, if_false, hsub]
    rw [if_neg (by omega), hns]

theorem pow2ToInt_of_le (conv : Int → Int) (i : Int) (h1 : 0 ≤ i) (h2 : i ≤ 62) :
    pow2ToInt conv i = 2 ^ i.toNat := by
  unfold pow2ToInt
  rw [if_neg (by omega), if_pos h2]

theorem two_pow_toNat_bounds (i : Int) (h1 : 1 ≤ i) (h2 : i ≤ 32) :
    (2 : Int) ≤ 2 ^ i.toNat ∧ (2 : Int) ^ i.toNat ≤ 4294967296 := by
  have ha : 1 ≤ i.toNat := by omega
  have hb : i.toNat ≤ 32 := by omega
  constructor
  · calc (2 : Int) = 2 ^ 1 := by norm_num
      _ ≤ 2 ^ i.toNat := pow_le_pow_right₀ (by norm_num) ha
  · calc (2 : Int) ^ i.toNat ≤ 2 ^ 32 := pow_le_pow_right₀ (by norm_num) hb
      _ = 4294967296 := by norm_num

/-- Within the attempts `1..32` the jittered exponential delay is a whole
number of milliseconds within a third of the base `2^i * 1000`, and
positive. -/
theorem ExponentialJitterBackoff_of_le_32 (conv : Int → Int) (i : Int) (u1 u2 : Nat)
    (h1 : 1 ≤ i) (h2 : i ≤ 32) :
    ∃ m : Int, ExponentialJitterBackoff conv i u1 u2 = some (m * Millisecond) ∧
      2 ^ i.toNat * 1000 - 2 ^ i.toNat * 1000 / 3 ≤ m ∧
      m ≤ 2 ^ i.toNat * 1000 + 2 ^ i.toNat * 1000 / 3 ∧ 0 < m := by
  obtain ⟨hlo, hhi⟩ := two_pow_toNat_bounds i h1 h2
  unfold ExponentialJitterBackoff
  rw [pow2ToInt_of_le conv i (by omega) (by omega)]
  exact jitter_of_small _ u1 u2 (by omega) (by omega)

/-- The scenario of the specification: `jitter(1)`, base 1000 ms, is always
within `[667 ms, 1333 ms]`. -/
theorem jitter_one (u1 u2 : Nat) :
    ∃ m : Int, jitter 1 u1 u2 = some (m * Millisecond) ∧ 667 ≤ m ∧ m ≤ 1333 := by
  obtain ⟨m, hm, hlo, hhi, _⟩ := jitter_of_small 1 u1 u2 (by decide) (by decide)
  exact ⟨m, hm, by omega, by omega⟩

theorem two_pow_emod_three (n : Nat) : (2 : Int) ^ n % 3 = 1 ∨ (2 : Int) ^ n % 3 = 2 := by
  induction n with
  | zero => left; rfl
  | succ n ih =>
    rw [pow_succ]
    omega

/-- Within the attempts `1..32` the delays increase strictly from one attempt
to the next, whatever the random draws of the two calls. -/
theorem ExponentialJitterBackoff_increasing_of_le_31 (conv : Int → Int) (i : Int)
    (u1 u2 v1 v2 : Nat) (h1 : 1 ≤ i) (h2 : i ≤ 31) :
    ∃ d1 d2 : Int, ExponentialJitterBackoff conv i u1 u2 = some d1 ∧
      ExponentialJitterBackoff conv (i + 1) v1 v2 = some d2 ∧ d1 < d2 := by
  obtain ⟨m1, hm1, _, hhi1, _⟩ :=
    ExponentialJitterBackoff_of_le_32 conv i u1 u2 h1 (by omega)
  obtain ⟨m2, hm2, hlo2, _, _⟩ :=
    ExponentialJitterBackoff_of_le_32 conv (i + 1) v1 v2 (by omega) (by omega)
  have hsucc : (i + 1).toNat = i.toNat + 1 := by omega
  rw [hsucc, pow_succ] at hlo2
  have hmod := two_pow_emod_three i.toNat
  refine ⟨_, _, hm1, hm2, ?_⟩
  unfold Millisecond
  generalize (2 : Int) ^ i.toNat = P at *
  omega

/-- At attempt 34 (`2^34 = 17179869184` seconds) every outcome of the draws
overflows: `ms * 1000000` lies between `2^63` and `2^65` and the duration is
that product minus `2^64`. -/
theorem jitter_attempt_34 (u1 u2 : Nat) :
    ∃ j : Int, 0 ≤ j ∧ j ≤ 5726623061333 ∧
      jitter 17179869184 u1 u2 =
        some (if (u2 : Int) % 2 = 1
          then (17179869184000 + j) * 1000000 - 18446744073709551616
          else (17179869184000 - j) * 1000000 - 18446744073709551616) := by
  have hms : wrap64 (17179869184 * 1000) = 17179869184000 := by decide
  have hdiv : Int.tdiv 17179869184000 3 = 5726623061333 := by decide
  have hmax : wrap64 (5726623061333 + 1) = 5726623061334 := by decide
  have hI1 : Intn 5726623061334 u1 = some ((u1 : Int) % 5726623061334) := by
    simp [Intn]
  have hI2 : Intn 2 u2 = some ((u2 : Int) % 2) := by
    simp [Intn]
  have hj0 : 0 ≤ (u1 : Int) % 5726623061334 := by omega
  have hj1 : (u1 : Int) % 5726623061334 ≤ 5726623061333 := by omega
  refine ⟨(u1 : Int) % 5726623061334, hj0, hj1, ?_⟩
  simp only [jitter, hms, hdiv, hmax, hI1, hI2]
  generalize (u1 : Int) % 5726623061334 = j at hj0 hj1
  by_cases hcoin : (u2 : Int) % 2 = 1
  · have hadd : wrap64 (17179869184000 + j) = 17179869184000 + j :=
      wrap64_eq_self (by unfold minInt; omega) (by unfold maxInt; omega)
    simp only [hcoin, if_true, hadd]
    rw [if_neg (by omega)]
    congr 1
    unfold wrap64 Millisecond
    omega
  · have hsub : wrap64 (17179869184000 - j) = 17179869184000 - j :=
      wrap64_eq_self (by unfold minInt; omega) (by unfold maxInt; omega)
    simp only [hcoin, if_false, hsub]
    rw [if_neg (by omega)]
    congr 1
    unfold wrap64 Millisecond
    omega

/-- At attempt 33 (`2^33 = 8589934592` seconds), when the jitter amount is
subtracted, the nanosecond count still fits `int64`. -/
theorem jitter_attempt_33_subtract (u1 : Nat) :
    ∃ j : Int, 0 ≤ j ∧ j ≤ 2863311530666 ∧
      jitter 8589934592 u1 0 = some ((8589934592000 - j) * 1000000) := by
  have hms : wrap64 (8589934592 * 1000) = 8589934592000 := by decide
  have hdiv : Int.tdiv 8589934592000 3 = 2863311530666 := by decide
  have hmax : wrap64 (2863311530666 + 1) = 2863311530667 := by decide
  have hI1 : Intn 2863311530667 u1 = some ((u1 : Int) % 2863311530667) := by
    simp [Intn]
  have hI2 : Intn 2 0 = some 0 := by decide
  have hj0 : 0 ≤ (u1 : Int) % 2863311530667 := by omega
  have hj1 : (u1 : Int) % 2863311530667 ≤ 2863311530666 := by omega
  refine ⟨(u1 : Int) % 2863311530667, hj0, hj1, ?_⟩
  simp only [jitter, hms, hdiv, hmax, hI1, hI2]
  generalize (u1 : Int) % 2863311530667 = j at hj0 hj1
  have hsub : wrap64 (8589934592000 - j) = 8589934592000 - j :=
    wrap64_eq_self (by unfold minInt; omega) (by unfold maxInt; omega)
  have h01 : ¬ ((0 : Int) = 1) := by decide
  simp only [h01, if_false, hsub]
  rw [if_neg (by omega)]
  congr 1
  unfold wrap64 Millisecond
  omega

theorem pow2ToInt_33 (conv : Int → Int) : pow2ToInt conv 33 = 8589934592 := by
  rw [pow2ToInt_of_le conv 33 (by decide) (by decide)]
  decide

theorem pow2ToInt_34 (conv : Int → Int) : pow2ToInt conv 34 = 17179869184 := by
  rw [pow2ToInt_of_le conv 34 (by decide) (by decide)]
  decide

/-! ## Jitter beyond the range of `int64` nanoseconds -/

/-- C6 (defect of the code): at attempt 34 the base is `2^34 * 1000` ms and
the nanosecond count `ms * 1000000` does not fit `int64`: for every outcome of
the two random draws the duration returned is below `base - base / 3`
milliseconds; with a jitter amount of 0 it is -1266874889709551616 ns. -/
theorem ExponentialJitterBackoff_34_outside_interval (conv : Int → Int) (u1 u2 : Nat) :
    (∃ d : Int, ExponentialJitterBackoff conv 34 u1 u2 = some d ∧
      d < (2 ^ 34 * 1000 - 2 ^ 34 * 1000 / 3) * Millisecond) ∧
    ExponentialJitterBackoff conv 34 0 0 = some (-1266874889709551616) ∧
    toMilliseconds (-1266874889709551616) = -1266874889709 := by
  unfold ExponentialJitterBackoff
  rw [pow2ToInt_34]
  refine ⟨?_, by decide, by decide⟩
  obtain ⟨j, hj0, hj1, hjit⟩ := jitter_attempt_34 u1 u2
  refine ⟨_, hjit, ?_⟩
  unfold Millisecond
  split <;> omega

/-- C7 (defect of the code): at attempt 34, whenever the coin says subtract,
whatever the jitter amount, `ms` passes the clamp `ms <= 0` and the product
`ms * 1000000` overflows `int64`: the duration returned is negative. At
attempt 33 the same happens when the largest jitter amount is added. -/
theorem ExponentialJitterBackoff_34_negative (conv : Int → Int) (u1 : Nat) :
    (∃ d : Int, ExponentialJitterBackoff conv 34 u1 0 = some d ∧ d < 0) ∧
    ExponentialJitterBackoff conv 33 2863311530666 1 = some (-6993497951043551616) := by
  unfold ExponentialJitterBackoff
  rw [pow2ToInt_34, pow2ToInt_33]
  refine ⟨?_, by decide⟩
  obtain ⟨j, hj0, hj1, hjit⟩ := jitter_attempt_34 u1 0
  refine ⟨_, hjit, ?_⟩
  rw [if_neg (by decide)]
  omega

/-- C8 (defect of the code): whenever the coin says subtract in both calls,
whatever the jitter amounts, attempt 33 gives a positive delay and attempt 34
a negative one: the delay for attempt 34 is smaller than the delay for
attempt 33. With a jitter amount of 0 they are 8589934592 s and
-1266874889709551616 ns. -/
theorem ExponentialJitterBackoff_34_below_33 (conv : Int → Int) (u1 v1 : Nat) :
    (∃ d33 d34 : Int, ExponentialJitterBackoff conv 33 u1 0 = some d33 ∧
      ExponentialJitterBackoff conv 34 v1 0 = some d34 ∧ d34 < 0 ∧ 0 < d33) ∧
    ExponentialJitterBackoff conv 33 0 0 = some 8589934592000000000 ∧
    ExponentialJitterBackoff conv 34 0 0 = some (-1266874889709551616) := by
  unfold ExponentialJitterBackoff
  rw [pow2ToInt_34, pow2ToInt_33]
  refine ⟨?_, by decide, by decide⟩
  obtain ⟨j, hj0, hj1, hjit⟩ := jitter_attempt_33_subtract u1
  obtain ⟨j2, hj20, hj21, hjit2⟩ := jitter_attempt_34 v1 0
  refine ⟨_, _, hjit, hjit2, ?_, by omega⟩
  rw [if_neg (by decide)]
  omega

/-! ## Every finished iteration, case by case -/

/-- What one iteration of the loop does, read off a finished run: the
operation ends the loop, or the budget is exhausted, or the timer blocks, or
the loop goes on with the incremented attempt number. -/
theorem loop_succ_cases {σ : Type} (N : Int) (fn : Func σ) (b : BackoffStrategy σ)
    (fuel : Nat) (a : Int) (s : σ) (r : Result σ) (h : loop N fn b (fuel + 1) a s = some r) :
    (r.trace = [Event.call a (fn a s).1.1 (fn a s).1.2] ∧
      r.outcome = Outcome.returned (fn a s).1.2 ∧
      ((fn a s).1.1 = false ∨ (fn a s).1.2 = none)) ∨
    (r.trace = [Event.call a (fn a s).1.1 (fn a s).1.2] ∧
      r.outcome = Outcome.returned errMaxRetriesReached ∧
      (fn a s).1.1 = true ∧ (fn a s).1.2 ≠ none ∧ N < wrap64 (a + 1)) ∨
    (r.trace = [Event.call a (fn a s).1.1 (fn a s).1.2,
        Event.backoff (wrap64 (a + 1)) (b (wrap64 (a + 1)) (fn a s).2).1,
        Event.tick (tickDuration (b (wrap64 (a + 1)) (fn a s).2).1)] ∧
      r.outcome = Outcome.blocked ∧
      (fn a s).1.1 = true ∧ (fn a s).1.2 ≠ none ∧ wrap64 (a + 1) ≤ N ∧
      tickDuration (b (wrap64 (a + 1)) (fn a s).2).1 ≤ 0) ∨
    (∃ r1 : Result σ,
      loop N fn b fuel (wrap64 (a + 1)) (b (wrap64 (a + 1)) (fn a s).2).2 = some r1 ∧
      r.trace = [Event.call a (fn a s).1.1 (fn a s).1.2,
        Event.backoff (wrap64 (a + 1)) (b (wrap64 (a + 1)) (fn a s).2).1,
        Event.tick (tickDuration (b (wrap64 (a + 1)) (fn a s).2).1)] ++ r1.trace ∧
      r.outcome = r1.outcome ∧
      (fn a s).1.1 = true ∧ (fn a s).1.2 ≠ none ∧ wrap64 (a + 1) ≤ N ∧
      0 < tickDuration (b (wrap64 (a + 1)) (fn a s).2).1) := by
  by_cases hstop : (fn a s).1.1 = false ∨ (fn a s).1.2 = none
  · rw [loop_stop N fn b fuel a s hstop] at h
    cases h
    exact Or.inl ⟨rfl, rfl, hstop⟩
  · have hc : (fn a s).1.1 = true := by
      cases hx : (fn a s).1.1
      · exact absurd (Or.inl hx) hstop
      · rfl
    have he : (fn a s).1.2 ≠ none := fun hx => hstop (Or.inr hx)
    by_cases hex : N < wrap64 (a + 1)
    · rw [loop_exhausted N fn b fuel a s hc he hex] at h
      cases h
      exact Or.inr (Or.inl ⟨rfl, rfl, hc, he, hex⟩)
    · have hle : wrap64 (a + 1) ≤ N := by omega
      by_cases hd : wrap64 ((b (wrap64 (a + 1)) (fn a s).2).1 + 1 * Microsecond) ≤ 0
      · rw [loop_blocked N fn b fuel a s hc he hle hd] at h
        cases h
        exact Or.inr (Or.inr (Or.inl ⟨rfl, rfl, hc, he, hle, hd⟩))
      · have hd2 : 0 < wrap64 ((b (wrap64 (a + 1)) (fn a s).2).1 + 1 * Microsecond) := by
          omega
        rw [loop_retry N fn b fuel a s hc he hle hd2] at h
        cases hrec : loop N fn b fuel (wrap64 (a + 1)) (b (wrap64 (a + 1)) (fn a s).2).2 with
        | none => rw [hrec] at h; simp at h
        | some r1 =>
          rw [hrec] at h
          simp only [Option.map_some', Option.some.injEq] at h
          subst h
          exact Or.inr (Or.inr (Or.inr ⟨r1, rfl, rfl, rfl, hc, he, hle, hd2⟩))

theorem loop_none_of_zero {σ : Type} (N : Int) (fn : Func σ) (b : BackoffStrategy σ)
    (a : Int) (s : σ) (r : Result σ) : loop N fn b 0 a s ≠ some r := by
  simp [loop]

/-! ## Invariants of the trace -/

theorem invocations_cons_call (a : Int) (c : Bool) (e : error) (t : List Event) :
    invocations (Event.call a c e :: t) = invocations t + 1 := by
  simp [invocations, calls]

theorem invocations_retry_steps (a : Int) (c : Bool) (e : error) (a1 d t1 : Int)
    (t : List Event) :
    invocations ([Event.call a c e, Event.backoff a1 d, Event.tick t1] ++ t)
      = invocations t + 1 := by
  simp [invocations, calls]

theorem attempts_retry_steps (a : Int) (c : Bool) (e : error) (a1 d t1 : Int)
    (t : List Event) :
    attempts ([Event.call a c e, Event.backoff a1 d, Event.tick t1] ++ t)
      = a :: attempts t := by
  simp [attempts, calls]

/-- A finished run has invoked the operation, and every attempt number after
the one the loop was entered with is within the budget. -/
theorem loop_attempts_bounded {σ : Type} (N : Int) (fn : Func σ) (b : BackoffStrategy σ) :
    ∀ (fuel : Nat) (a : Int) (s : σ) (r : Result σ), loop N fn b fuel a s = some r →
      1 ≤ invocations r.trace ∧ ∀ x ∈ attempts r.trace, x = a ∨ x ≤ N := by
  intro fuel
  induction fuel with
  | zero => intro a s r h; exact absurd h (loop_none_of_zero N fn b a s r)
  | succ fuel ih =>
    intro a s r h
    rcases loop_succ_cases N fn b fuel a s r h with
      ⟨ht, _⟩ | ⟨ht, _⟩ | ⟨ht, _⟩ | ⟨r1, hr1, ht, _, _, _, hle, _⟩
    · rw [ht]; simp [invocations, attempts, calls]
    · rw [ht]; simp [invocations, attempts, calls]
    · rw [ht]; simp [invocations, attempts, calls]
    · obtain ⟨hinv, hall⟩ := ih _ _ r1 hr1
      rw [ht, invocations_retry_steps, attempts_retry_steps]
      refine ⟨by omega, ?_⟩
      intro x hx
      rcases List.mem_cons.1 hx with hx | hx
      · exact Or.inl hx
      · rcases hall x hx with hx | hx
        · right; omega
        · exact Or.inr hx

/-- In a finished run the invocations follow each other as the loop counts. -/
theorem loop_chained {σ : Type} (N : Int) (fn : Func σ) (b : BackoffStrategy σ) :
    ∀ (fuel : Nat) (a : Int) (s : σ) (r : Result σ), loop N fn b fuel a s = some r →
      chained a (calls r.trace) = true := by
  intro fuel
  induction fuel with
  | zero => intro a s r h; exact absurd h (loop_none_of_zero N fn b a s r)
  | succ fuel ih =>
    intro a s r h
    rcases loop_succ_cases N fn b fuel a s r h with
      ⟨ht, _⟩ | ⟨ht, _⟩ | ⟨ht, _⟩ | ⟨r1, hr1, ht, _, hc, he, _, _⟩
    · rw [ht]; simp [calls, chained]
    · rw [ht]; simp [calls, chained]
    · rw [ht]; simp [calls, chained]
    · have h1 := ih _ _ r1 hr1
      rw [ht]
      have hcalls : calls ([Event.call a (fn a s).1.1 (fn a s).1.2,
          Event.backoff (wrap64 (a + 1)) (b (wrap64 (a + 1)) (fn a s).2).1,
          Event.tick (tickDuration (b (wrap64 (a + 1)) (fn a s).2).1)] ++ r1.trace)
          = (a, (fn a s).1.1, (fn a s).1.2) :: calls r1.trace := by
        simp [calls]
      rw [hcalls]
      cases hcs : calls r1.trace with
      | nil => rw [hcs] at h1; simp [chained] at h1
      | cons c1 t =>
        rw [hcs] at h1
        simp [chained, hc, he, h1]

/-- As long as the attempt number does not overflow, the attempt numbers of a
finished run are consecutive integers. -/
theorem loop_attempts_consecutive {σ : Type} (N : Int) (fn : Func σ)
    (b : BackoffStrategy σ) :
    ∀ (fuel : Nat) (a : Int) (s : σ) (r : Result σ), loop N fn b fuel a s = some r →
      1 ≤ a → a + (invocations r.trace : Int) - 1 ≤ maxInt →
      attempts r.trace = attemptsFrom a (invocations r.trace) := by
  intro fuel
  induction fuel with
  | zero => intro a s r h; exact absurd h (loop_none_of_zero N fn b a s r)
  | succ fuel ih =>
    intro a s r h ha hmax
    rcases loop_succ_cases N fn b fuel a s r h with
      ⟨ht, _⟩ | ⟨ht, _⟩ | ⟨ht, _⟩ | ⟨r1, hr1, ht, _, _, _, _, _⟩
    · rw [ht]; simp [invocations, attempts, calls, attemptsFrom]
    · rw [ht]; simp [invocations, attempts, calls, attemptsFrom]
    · rw [ht]; simp [invocations, attempts, calls, attemptsFrom]
    · have hinv := (loop_attempts_bounded N fn b fuel _ _ r1 hr1).1
      rw [ht, invocations_retry_steps] at hmax
      rw [ht, invocations_retry_steps, attempts_retry_steps]
      have hw : wrap64 (a + 1) = a + 1 :=
        wrap64_eq_self (by unfold minInt; omega) (by push_cast at hmax; omega)
      rw [hw] at hr1
      rw [ih _ _ r1 hr1 (by omega) (by push_cast at hmax; omega)]
      rfl

/-- Every duration handed to the timer is the delay the backoff returned plus
one microsecond. -/
theorem loop_ticks {σ : Type} (N : Int) (fn : Func σ) (b : BackoffStrategy σ) :
    ∀ (fuel : Nat) (a : Int) (s : σ) (r : Result σ), loop N fn b fuel a s = some r →
      ticks r.trace = (backoffDelays r.trace).map tickDuration := by
  intro fuel
  induction fuel with
  | zero => intro a s r h; exact absurd h (loop_none_of_zero N fn b a s r)
  | succ fuel ih =>
    intro a s r h
    rcases loop_succ_cases N fn b fuel a s r h with
      ⟨ht, _⟩ | ⟨ht, _⟩ | ⟨ht, _⟩ | ⟨r1, hr1, ht, _, _, _, _, _⟩
    · rw [ht]; simp [ticks, backoffDelays]
    · rw [ht]; simp [ticks, backoffDelays]
    · rw [ht]; simp [ticks, backoffDelays]
    · rw [ht]
      simp [ticks, backoffDelays, ih _ _ r1 hr1]

theorem le_of_mem_attemptsFrom (a : Int) (n : Nat) (x : Int) (h : x ∈ attemptsFrom a n) :
    a ≤ x := by
  induction n generalizing a with
  | zero => simp [attemptsFrom] at h
  | succ n ih =>
    rcases List.mem_cons.1 h with h | h
    · omega
    · have := ih (a + 1) h
      omega

/-- A run that returns, in which the attempt number did not overflow, is an
invocation followed by retries, each of them the backoff called with the
incremented attempt number, the timer, and the next invocation. -/
theorem loop_returned_shape {σ : Type} (N : Int) (fn : Func σ) (b : BackoffStrategy σ) :
    ∀ (fuel : Nat) (a : Int) (s : σ) (r : Result σ) (e : error),
      loop N fn b fuel a s = some r → r.outcome = Outcome.returned e →
      1 ≤ a → a + (invocations r.trace : Int) - 1 ≤ maxInt →
      r.trace.map Event.tag = Tag.call a :: retrySteps (a + 1) (invocations r.trace - 1) ∧
      backoffArgs r.trace = attemptsFrom (a + 1) (invocations r.trace - 1) := by
  intro fuel
  induction fuel with
  | zero => intro a s r e h; exact absurd h (loop_none_of_zero N fn b a s r)
  | succ fuel ih =>
    intro a s r e h hout ha hmax
    rcases loop_succ_cases N fn b fuel a s r h with
      ⟨ht, _⟩ | ⟨ht, _⟩ | ⟨_, hb, _⟩ | ⟨r1, hr1, ht, ho, _, _, _, _⟩
    · rw [ht]; simp [invocations, calls, backoffArgs, Event.tag, retrySteps, attemptsFrom]
    · rw [ht]; simp [invocations, calls, backoffArgs, Event.tag, retrySteps, attemptsFrom]
    · rw [hb] at hout; cases hout
    · have hinv := (loop_attempts_bounded N fn b fuel _ _ r1 hr1).1
      rw [ht, invocations_retry_steps] at hmax
      have hw : wrap64 (a + 1) = a + 1 :=
        wrap64_eq_self (by unfold minInt; omega) (by push_cast at hmax; omega)
      rw [hw] at hr1
      obtain ⟨h1, h2⟩ := ih _ _ r1 e hr1 (by rw [← ho]; exact hout) (by omega)
        (by push_cast at hmax; omega)
      obtain ⟨m, hm⟩ : ∃ m, invocations r1.trace = m + 1 := ⟨invocations r1.trace - 1, by omega⟩
      rw [hm] at h1 h2
      rw [ht, invocations_retry_steps, hm, hw]
      simp only [Nat.add_sub_cancel] at h1 h2 ⊢
      constructor
      · simp only [List.map_append, List.map_cons, List.map_nil, Event.tag, h1, retrySteps]
        rfl
      · simp only [List.cons_append, List.nil_append, backoffArgs, attemptsFrom]
        rw [← h2]
        rfl

/-! ## Attempt numbers and the budget -/

/-- C11, as amended: for every operation, backoff strategy and budget, a run
with a budget below `maxInt` and enough fuel finishes; a finished run has
invoked the operation at least once, and every attempt number passed to the
operation is 1 or is within the budget (`attempt ≤ MaxRetries`); with a
budget of at least 1 every attempt number is within the budget. -/
theorem DoWithBackoff_attempts_within_budget {σ : Type} (N : Int) (fn : Func σ)
    (b : BackoffStrategy σ) (s : σ) (fuel : Nat) :
    (N < maxInt → 1 ≤ fuel → N ≤ (fuel : Int) →
      ∃ r : Result σ, DoWithBackoff fuel N fn b s = some r) ∧
    (∀ r : Result σ, DoWithBackoff fuel N fn b s = some r →
      1 ≤ invocations r.trace ∧
      (∀ x ∈ attempts r.trace, x = 1 ∨ x ≤ N) ∧
      (∀ x ∈ attempts r.trace, x ≤ max 1 N) ∧
      (1 ≤ N → ∀ x ∈ attempts r.trace, x ≤ N)) := by
  constructor
  · intro hN hf1 hf2
    exact loop_terminates N fn b hN fuel 1 s (le_refl 1) (by unfold maxInt; omega) hf1
      (by omega)
  · intro r hrun
    obtain ⟨hinv, hall⟩ := loop_attempts_bounded N fn b fuel 1 s r hrun
    refine ⟨hinv, hall, ?_, ?_⟩
    · intro x hx
      rcases hall x hx with h | h
      · rw [h]; exact le_max_left 1 N
      · exact le_trans h (le_max_right 1 N)
    · intro hN x hx
      rcases hall x hx with h | h
      · omega
      · exact h

/-- Witness of C11: budget 3 and an operation that always returns
`(true, err)`; the run finishes, with three invocations, all of them with an
attempt number of at most 3. -/
theorem DoWithBackoff_attempts_within_budget_witness :
    (∃ r : Result Nat, DoWithBackoff 3 3 alwaysRetry (pureBackoff DefaultBackoff) 0 = some r) ∧
    (1 ≤ invocations exhaustedRun.trace ∧
      (∀ x ∈ attempts exhaustedRun.trace, x = 1 ∨ x ≤ 3) ∧
      (∀ x ∈ attempts exhaustedRun.trace, x ≤ max 1 3) ∧
      ((1 : Int) ≤ 3 → ∀ x ∈ attempts exhaustedRun.trace, x ≤ 3)) :=
  ⟨(DoWithBackoff_attempts_within_budget 3 alwaysRetry (pureBackoff DefaultBackoff) 0 3).1
      (by decide) (by decide) (by decide),
   (DoWithBackoff_attempts_within_budget 3 alwaysRetry (pureBackoff DefaultBackoff) 0 3).2
      exhaustedRun rfl⟩

/-- Counterexample to C11 as stated: with budget 0 (and with budget -5) the
operation is invoked with the attempt number 1, which is not within the
budget. -/
theorem DoWithBackoff_attempts_within_budget_counterexample :
    ((Do 1 0 (declineAt 1 none) 0).map (fun r => (r.outcome, attempts r.trace))
        = some (Outcome.returned none, [1])) ∧
    ((Do 1 (-5) alwaysRetry 0).map (fun r => (r.outcome, attempts r.trace))
        = some (Outcome.returned errMaxRetriesReached, [1])) ∧
    ¬ ((1 : Int) ≤ 0) ∧ ¬ ((1 : Int) ≤ -5) := by
  decide

/-- C12, as amended: in every finished run of `DoWithBackoff` the operation was invoked
`m ≥ 1` times; the first invocation received 1, every invocation but the last
returned `(true, non-nil error)` and was followed by the invocation with the
attempt number plus one (the counter is incremented exactly once for it); and
the attempt numbers are exactly `1, 2, ..., m` (as long as `m` is an `int`,
that is, the counter did not overflow). -/
theorem DoWithBackoff_attempts_consecutive {σ : Type} (N : Int) (fn : Func σ)
    (b : BackoffStrategy σ) (s : σ) (fuel : Nat) (r : Result σ)
    (h : DoWithBackoff fuel N fn b s = some r) :
    1 ≤ invocations r.trace ∧
    chained 1 (calls r.trace) = true ∧
    ((invocations r.trace : Int) ≤ maxInt →
      attempts r.trace = attemptsFrom 1 (invocations r.trace)) :=
  ⟨(loop_attempts_bounded N fn b fuel 1 s r h).1,
   loop_chained N fn b fuel 1 s r h,
   fun hm => loop_attempts_consecutive N fn b fuel 1 s r h (le_refl 1) (by omega)⟩

/-- Witness of C12: budget 3 and an operation that always returns
`(true, err)`: the attempt numbers are 1, 2, 3. -/
theorem DoWithBackoff_attempts_consecutive_witness :
    1 ≤ invocations exhaustedRun.trace ∧
    chained 1 (calls exhaustedRun.trace) = true ∧
    ((invocations exhaustedRun.trace : Int) ≤ maxInt →
      attempts exhaustedRun.trace = attemptsFrom 1 (invocations exhaustedRun.trace)) :=
  DoWithBackoff_attempts_consecutive 3 alwaysRetry (pureBackoff DefaultBackoff) 0 3
    exhaustedRun rfl

/-! ## The backoff between the invocations -/

/-- C13, as amended: in the trace of every run of `DoWithBackoff` that returns after `m`
invocations (`m` an `int`), the steps are: invocation 1, then for
`j = 2, ..., m` the backoff called with `j`, the timer, invocation `j`. So the
backoff is called exactly `m - 1` times, with the arguments `2, ..., m` in
order, each call between invocation `j - 1` and invocation `j`; it is never
called with 1, and the trace ends with an invocation: no call of the backoff
follows the final failure. -/
theorem DoWithBackoff_backoff_between_invocations {σ : Type} (N : Int) (fn : Func σ)
    (b : BackoffStrategy σ) (s : σ) (fuel : Nat) (r : Result σ) (e : error)
    (h : DoWithBackoff fuel N fn b s = some r) (hout : r.outcome = Outcome.returned e)
    (hm : (invocations r.trace : Int) ≤ maxInt) :
    r.trace.map Event.tag = Tag.call 1 :: retrySteps 2 (invocations r.trace - 1) ∧
    backoffArgs r.trace = attemptsFrom 2 (invocations r.trace - 1) ∧
    (backoffArgs r.trace).length = invocations r.trace - 1 ∧
    1 ∉ backoffArgs r.trace ∧
    (∃ (a : Int) (c : Bool) (e1 : error), r.trace.getLast? = some (Event.call a c e1)) := by
  obtain ⟨h1, h2⟩ := loop_returned_shape N fn b fuel 1 s r e h hout (le_refl 1) (by omega)
  obtain ⟨a, c, e1, hl, _⟩ := loop_returned N fn b fuel 1 s r e h hout
  refine ⟨h1, h2, ?_, ?_, a, c, e1, hl⟩
  · rw [h2, length_attemptsFrom]
  · rw [h2]
    intro hmem
    have := le_of_mem_attemptsFrom _ _ _ hmem
    omega

/-- Witness of C13: budget 3 and an operation that always returns
`(true, err)`: the backoff is called twice, with 2 and with 3. -/
theorem DoWithBackoff_backoff_between_invocations_witness :
    exhaustedRun.trace.map Event.tag
      = Tag.call 1 :: retrySteps 2 (invocations exhaustedRun.trace - 1) ∧
    backoffArgs exhaustedRun.trace = attemptsFrom 2 (invocations exhaustedRun.trace - 1) ∧
    (backoffArgs exhaustedRun.trace).length = invocations exhaustedRun.trace - 1 ∧
    1 ∉ backoffArgs exhaustedRun.trace ∧
    (∃ (a : Int) (c : Bool) (e1 : error),
      exhaustedRun.trace.getLast? = some (Event.call a c e1)) :=
  DoWithBackoff_backoff_between_invocations 3 alwaysRetry (pureBackoff DefaultBackoff) 0 3
    exhaustedRun errMaxRetriesReached rfl rfl (by decide)

/-! ## The duration handed to the timer -/

/-- C14, as amended: the duration `DoWithBackoff` hands to the timer is the
delay `d` of the backoff plus one microsecond, and it is strictly positive
exactly when `-1µs < d ≤ maxInt - 1µs`: for a delay of zero and for every
positive delay short of the overflow, not for a delay of `-1µs` or below. -/
theorem tickDuration_pos_iff {σ : Type} (N : Int) (fn : Func σ) (b : BackoffStrategy σ)
    (s : σ) (fuel : Nat) (d : Int) (h1 : minInt ≤ d) (h2 : d ≤ maxInt) :
    (0 < tickDuration d ↔ (-Microsecond < d ∧ d ≤ maxInt - Microsecond)) ∧
    (0 ≤ d → d ≤ maxInt - Microsecond → tickDuration d = d + Microsecond) ∧
    (∀ r : Result σ, DoWithBackoff fuel N fn b s = some r →
      ticks r.trace = (backoffDelays r.trace).map tickDuration) := by
  refine ⟨?_, ?_, fun r hr => loop_ticks N fn b fuel 1 s r hr⟩
  · unfold tickDuration wrap64 Microsecond
    unfold minInt at h1
    unfold maxInt at h2 ⊢
    omega
  · unfold tickDuration wrap64 Microsecond maxInt
    omega

/-- Witness of C14: a delay of zero, as `DefaultBackoff` returns it, is handed
to the timer as one microsecond. -/
theorem tickDuration_pos_iff_witness :
    (0 < tickDuration 0 ↔ (-Microsecond < 0 ∧ 0 ≤ maxInt - Microsecond)) ∧
    ((0 : Int) ≤ 0 → 0 ≤ maxInt - Microsecond → tickDuration 0 = 0 + Microsecond) ∧
    (∀ r : Result Nat, DoWithBackoff 3 3 alwaysRetry (pureBackoff DefaultBackoff) 0 = some r →
      ticks r.trace = (backoffDelays r.trace).map tickDuration) :=
  tickDuration_pos_iff 3 alwaysRetry (pureBackoff DefaultBackoff) 0 3 0 (by decide) (by decide)

/-- Counterexample to C14 as stated: for a delay of minus one microsecond the
duration handed to the timer is 0, for minus one second it is negative, and
for the largest duration it wraps around to the smallest; a run with a
backoff of minus one microsecond hands 0 to the timer and is blocked. -/
theorem tickDuration_pos_iff_counterexample :
    tickDuration (-1000) = 0 ∧
    tickDuration (-1000000000) = -999999000 ∧
    tickDuration maxInt = minInt + 999 ∧
    ((DoWithBackoff 3 3 alwaysRetry minusMicrosecond 0).map
        (fun r => (r.outcome, backoffDelays r.trace, ticks r.trace))
        = some (Outcome.blocked, [-1000], [0])) := by
  decide

/-! ## The backoff and the outcome -/

/-- What an observer of the operation sees of a run: the outcome and the
invocations. -/
theorem loop_backoff_irrelevant {σ : Type} (N : Int) (f : Int → Bool × error)
    (b1 b2 : BackoffStrategy σ) (h1 : Fires b1) (h2 : Fires b2) :
    ∀ (fuel : Nat) (a : Int) (s1 s2 : σ),
      (loop N (pureFunc f) b1 fuel a s1).map (fun r => (r.outcome, calls r.trace)) =
      (loop N (pureFunc f) b2 fuel a s2).map (fun r => (r.outcome, calls r.trace)) := by
  intro fuel
  induction fuel with
  | zero => intro a s1 s2; rfl
  | succ fuel ih =>
    intro a s1 s2
    by_cases hstop : (f a).1 = false ∨ (f a).2 = none
    · rw [loop_stop N (pureFunc f) b1 fuel a s1 hstop, loop_stop N (pureFunc f) b2 fuel a s2 hstop]
      rfl
    · have hc : (f a).1 = true := by
        cases hx : (f a).1
        · exact absurd (Or.inl hx) hstop
        · rfl
      have he : (f a).2 ≠ none := fun hx => hstop (Or.inr hx)
      by_cases hex : N < wrap64 (a + 1)
      · rw [loop_exhausted N (pureFunc f) b1 fuel a s1 hc he hex,
          loop_exhausted N (pureFunc f) b2 fuel a s2 hc he hex]
        rfl
      · have hle : wrap64 (a + 1) ≤ N := by omega
        rw [loop_retry N (pureFunc f) b1 fuel a s1 hc he hle (h1 _ _),
          loop_retry N (pureFunc f) b2 fuel a s2 hc he hle (h2 _ _)]
        have := ih (wrap64 (a + 1)) (b1 (wrap64 (a + 1)) (pureFunc f a s1).2).2
          (b2 (wrap64 (a + 1)) (pureFunc f a s2).2).2
        revert this
        cases loop N (pureFunc f) b1 fuel (wrap64 (a + 1))
            (b1 (wrap64 (a + 1)) (pureFunc f a s1).2).2 <;>
          cases loop N (pureFunc f) b2 fuel (wrap64 (a + 1))
            (b2 (wrap64 (a + 1)) (pureFunc f a s2).2).2 <;>
          simp [Result.prepend, calls_append, calls, pureFunc]

/-- With a backoff whose delays the timer accepts, a finished run is not
blocked. -/
theorem loop_not_blocked {σ : Type} (N : Int) (fn : Func σ) (b : BackoffStrategy σ)
    (hb : Fires b) :
    ∀ (fuel : Nat) (a : Int) (s : σ) (r : Result σ), loop N fn b fuel a s = some r →
      ∃ e : error, r.outcome = Outcome.returned e := by
  intro fuel
  induction fuel with
  | zero => intro a s r h; exact absurd h (loop_none_of_zero N fn b a s r)
  | succ fuel ih =>
    intro a s r h
    rcases loop_succ_cases N fn b fuel a s r h with
      ⟨_, ho, _⟩ | ⟨_, ho, _⟩ | ⟨_, _, _, _, _, hd⟩ | ⟨r1, hr1, _, ho, _⟩
    · exact ⟨_, ho⟩
    · exact ⟨_, ho⟩
    · have := hb (wrap64 (a + 1)) (fn a s).2
      unfold tickDuration at hd
      omega
    · obtain ⟨e, he⟩ := ih _ _ r1 hr1
      exact ⟨e, by rw [ho, he]⟩

/-- With a budget below `maxInt`, a finished run entered at the attempt `a`
has invoked the operation at most `max 1 (N + 1 - a)` times. -/
theorem loop_invocations_le {σ : Type} (N : Int) (fn : Func σ) (b : BackoffStrategy σ)
    (hN : N < maxInt) :
    ∀ (fuel : Nat) (a : Int) (s : σ) (r : Result σ), loop N fn b fuel a s = some r →
      1 ≤ a → a < maxInt → (invocations r.trace : Int) ≤ max 1 (N + 1 - a) := by
  intro fuel
  induction fuel with
  | zero => intro a s r h; exact absurd h (loop_none_of_zero N fn b a s r)
  | succ fuel ih =>
    intro a s r h ha ha2
    have hw : wrap64 (a + 1) = a + 1 :=
      wrap64_eq_self (by unfold minInt; omega) (by omega)
    rcases loop_succ_cases N fn b fuel a s r h with
      ⟨ht, _⟩ | ⟨ht, _⟩ | ⟨ht, _⟩ | ⟨r1, hr1, ht, _, _, _, hle, _⟩
    · rw [ht]; simp [invocations, calls]
    · rw [ht]; simp [invocations, calls]
    · rw [ht]; simp [invocations, calls]
    · rw [hw] at hr1 hle
      have h1 := ih _ _ r1 hr1 (by omega) (by omega)
      rw [ht, invocations_retry_steps]
      push_cast
      have h2 : max 1 (N + 1 - (a + 1)) = N + 1 - (a + 1) := max_eq_right (by omega)
      have h3 : max 1 (N + 1 - a) = N + 1 - a := max_eq_right (by omega)
      rw [h2] at h1
      rw [h3]
      omega

theorem fires_oneSecond : Fires oneSecond := by
  intro i s
  simp only [oneSecond, pureBackoff]
  decide

/-- C15, as amended: for every operation that is a function of the attempt
number, every budget, and any two backoff strategies whose delays the timer
accepts (delay plus one microsecond positive), the two runs have the same
outcome and the same invocations (same number, same attempt numbers, same
results); with a budget below `maxInt` and enough fuel both return. -/
theorem DoWithBackoff_backoff_irrelevant {σ : Type} (N : Int) (f : Int → Bool × error)
    (b1 b2 : BackoffStrategy σ) (s : σ) (fuel : Nat) (h1 : Fires b1) (h2 : Fires b2) :
    ((DoWithBackoff fuel N (pureFunc f) b1 s).map (fun r => (r.outcome, calls r.trace)) =
      (DoWithBackoff fuel N (pureFunc f) b2 s).map (fun r => (r.outcome, calls r.trace))) ∧
    (N < maxInt → 1 ≤ fuel → N ≤ (fuel : Int) →
      ∃ (r1 r2 : Result σ) (e : error),
        DoWithBackoff fuel N (pureFunc f) b1 s = some r1 ∧
        DoWithBackoff fuel N (pureFunc f) b2 s = some r2 ∧
        r1.outcome = Outcome.returned e ∧ r2.outcome = Outcome.returned e ∧
        attempts r1.trace = attempts r2.trace ∧
        invocations r1.trace = invocations r2.trace) := by
  have heq := loop_backoff_irrelevant N f b1 b2 h1 h2 fuel 1 s s
  refine ⟨heq, ?_⟩
  intro hN hf1 hf2
  obtain ⟨r1, hr1⟩ := loop_terminates N (pureFunc f) b1 hN fuel 1 s (le_refl 1)
    (by unfold maxInt; omega) hf1 (by omega)
  obtain ⟨r2, hr2⟩ := loop_terminates N (pureFunc f) b2 hN fuel 1 s (le_refl 1)
    (by unfold maxInt; omega) hf1 (by omega)
  obtain ⟨e, he⟩ := loop_not_blocked N (pureFunc f) b1 h1 fuel 1 s r1 hr1
  rw [hr1, hr2] at heq
  simp only [Option.map_some', Option.some.injEq, Prod.mk.injEq] at heq
  refine ⟨r1, r2, e, hr1, hr2, he, ?_, ?_, ?_⟩
  · rw [← heq.1, he]
  · simp only [attempts, heq.2]
  · simp only [invocations, heq.2]

/-- Witness of C15: budget 3, the operation that always returns `(true, err)`,
no delay against a delay of one second. -/
theorem DoWithBackoff_backoff_irrelevant_witness :
    ((DoWithBackoff 3 3 alwaysRetryPure (pureBackoff DefaultBackoff) 0).map
        (fun r => (r.outcome, calls r.trace)) =
      (DoWithBackoff 3 3 alwaysRetryPure oneSecond 0).map
        (fun r => (r.outcome, calls r.trace))) ∧
    ((3 : Int) < maxInt → 1 ≤ 3 → (3 : Int) ≤ ((3 : Nat) : Int) →
      ∃ (r1 r2 : Result Nat) (e : error),
        DoWithBackoff 3 3 alwaysRetryPure (pureBackoff DefaultBackoff) 0 = some r1 ∧
        DoWithBackoff 3 3 alwaysRetryPure oneSecond 0 = some r2 ∧
        r1.outcome = Outcome.returned e ∧ r2.outcome = Outcome.returned e ∧
        attempts r1.trace = attempts r2.trace ∧
        invocations r1.trace = invocations r2.trace) :=
  DoWithBackoff_backoff_irrelevant 3 (fun _ => (true, errorsNew 1))
    (pureBackoff DefaultBackoff) oneSecond 0 3 fires_DefaultBackoff fires_oneSecond

/-- Counterexample to C15 as stated: budget 3 and the operation that always
returns `(true, err)`. Without delay the run returns the sentinel after 3
invocations; with a backoff of minus one second it is blocked in the timer
after the first invocation. -/
theorem DoWithBackoff_backoff_irrelevant_counterexample :
    ((DoWithBackoff 3 3 alwaysRetryPure (pureBackoff DefaultBackoff) 0).map
        (fun r => (r.outcome, attempts r.trace))
        = some (Outcome.returned errMaxRetriesReached, [1, 2, 3])) ∧
    ((DoWithBackoff 3 3 alwaysRetryPure negativeBackoff 0).map
        (fun r => (r.outcome, attempts r.trace))
        = some (Outcome.blocked, [1])) := by
  decide

/-! ## Termination -/

/-- C16, as amended: with the budget `N` held fixed and below `maxInt`, for
every operation and backoff strategy the loop finishes when given
`max 1 N` units of fuel, after at most `max 1 N` and at least one invocation
of the operation; with a backoff whose delays the timer accepts it returns;
with `N ≤ 0` the operation is invoked exactly once and a retryable failure
yields the sentinel. -/
theorem DoWithBackoff_terminates {σ : Type} (N : Int) (fn : Func σ)
    (b : BackoffStrategy σ) (s : σ) (fuel : Nat)
    (hN : N < maxInt) (hf1 : 1 ≤ fuel) (hf2 : N ≤ (fuel : Int)) :
    ∃ r : Result σ, DoWithBackoff fuel N fn b s = some r ∧
      1 ≤ invocations r.trace ∧
      (invocations r.trace : Int) ≤ max 1 N ∧
      (Fires b → ∃ e : error, r.outcome = Outcome.returned e) ∧
      (N ≤ 0 → invocations r.trace = 1 ∧
        ((fn 1 s).1.1 = true → (fn 1 s).1.2 ≠ none →
          r.outcome = Outcome.returned errMaxRetriesReached)) := by
  obtain ⟨r, hr⟩ := loop_terminates N fn b hN fuel 1 s (le_refl 1)
    (by unfold maxInt; omega) hf1 (by omega)
  have hinv := (loop_attempts_bounded N fn b fuel 1 s r hr).1
  have hle := loop_invocations_le N fn b hN fuel 1 s r hr (le_refl 1)
    (by unfold maxInt; omega)
  have hle2 : (invocations r.trace : Int) ≤ max 1 N := by
    simpa using hle
  refine ⟨r, hr, hinv, hle2, fun hb => loop_not_blocked N fn b hb fuel 1 s r hr, ?_⟩
  intro hN0
  have hmax : max 1 N = 1 := max_eq_left (by omega)
  rw [hmax] at hle2
  refine ⟨by omega, ?_⟩
  intro hc he
  obtain ⟨f, rfl⟩ : ∃ f, fuel = f + 1 := ⟨fuel - 1, by omega⟩
  have hex := loop_exhausted N fn b f 1 s hc he
    (by rw [wrap64_eq_self (by decide) (by decide)]; omega)
  rw [hex] at hr
  cases hr
  rfl

/-- Witness of C16: budget 3 and an operation that always returns
`(true, err)`: the run finishes within 3 units of fuel and 3 invocations. -/
theorem DoWithBackoff_terminates_witness :
    ∃ r : Result Nat, DoWithBackoff 3 3 alwaysRetry (pureBackoff DefaultBackoff) 0 = some r ∧
      1 ≤ invocations r.trace ∧
      (invocations r.trace : Int) ≤ max 1 3 ∧
      (Fires (pureBackoff DefaultBackoff : BackoffStrategy Nat) →
        ∃ e : error, r.outcome = Outcome.returned e) ∧
      ((3 : Int) ≤ 0 → invocations r.trace = 1 ∧
        ((alwaysRetry 1 0).1.1 = true → (alwaysRetry 1 0).1.2 ≠ none →
          r.outcome = Outcome.returned errMaxRetriesReached)) :=
  DoWithBackoff_terminates 3 alwaysRetry (pureBackoff DefaultBackoff) 0 3 (by decide)
    (by decide) (by decide)

/-- Counterexample to C16 as stated: with a backoff of minus one second the
run of an operation that always returns `(true, err)` never returns, it is
blocked in the timer; and with the budget `maxInt` the incremented counter
never exceeds the budget and the loop never finishes, whatever the fuel. -/
theorem DoWithBackoff_terminates_counterexample :
    (¬ ∃ (fuel : Nat) (r : Result Nat) (e : error),
        DoWithBackoff fuel 3 alwaysRetry negativeBackoff 0 = some r ∧
        r.outcome = Outcome.returned e) ∧
    ((DoWithBackoff 3 3 alwaysRetry negativeBackoff 0).map
        (fun r => (r.outcome, invocations r.trace)) = some (Outcome.blocked, 1)) ∧
    (¬ ∃ (fuel : Nat) (r : Result Nat),
        DoWithBackoff fuel maxInt alwaysRetry oneSecond 0 = some r) := by
  refine ⟨?_, by decide, ?_⟩
  · rintro ⟨fuel, r, e, hr, he⟩
    cases fuel with
    | zero => exact absurd hr (loop_none_of_zero _ _ _ _ _ _)
    | succ fuel =>
      have h := loop_blocked 3 alwaysRetry negativeBackoff fuel 1 0
        (alwaysRetry_retries 1 0).1 (alwaysRetry_retries 1 0).2 (by decide) (by decide)
      unfold DoWithBackoff at hr
      rw [h] at hr
      cases hr
      cases he
  · rintro ⟨fuel, r, hr⟩
    unfold DoWithBackoff at hr
    rw [loop_maxInt_never_returns alwaysRetry _ alwaysRetry_retries fires_oneSecond] at hr
    cases hr

/-! ## The draws and the clamp of `jitter` -/

/-- The function `jitter` is the jittered value, clamped, in nanoseconds. -/
theorem jitter_eq_clamp_jittered (i : Int) (u1 u2 : Nat) :
    jitter i u1 u2 = (jittered i u1 u2).map (fun ms => wrap64 (clamp ms * Millisecond)) := by
  unfold jitter jittered jitterBound clamp
  dsimp only
  cases Intn (wrap64 (Int.tdiv (wrap64 (i * 1000)) 3 + 1)) u1 with
  | none => rfl
  | some jit =>
    cases Intn 2 u2 with
    | none => rfl
    | some coin => rfl

theorem Intn_two (u : Nat) : Intn 2 u = some ((u : Int) % 2) := by
  simp [Intn]

/-- The draws of `jitter` are defined exactly when the bound of the first is
positive. -/
theorem jittered_eq_none_iff (i : Int) (u1 u2 : Nat) :
    jittered i u1 u2 = none ↔ jitterBound i ≤ 0 := by
  unfold jittered
  rw [Intn_two]
  by_cases h : jitterBound i ≤ 0
  · simp [Intn, h]
  · simp [Intn, h]

theorem jitterBound_of_nonneg (x : Int) (h1 : 0 ≤ x) (h2 : x * 1000 ≤ maxInt) :
    jitterBound x = x * 1000 / 3 + 1 := by
  unfold jitterBound
  unfold maxInt at h2
  have hms : wrap64 (x * 1000) = x * 1000 :=
    wrap64_eq_self (by unfold minInt; omega) (by unfold maxInt; omega)
  have hdiv : Int.tdiv (x * 1000) 3 = x * 1000 / 3 :=
    Int.tdiv_eq_ediv (by omega) (by omega)
  have hmax : wrap64 (x * 1000 / 3 + 1) = x * 1000 / 3 + 1 :=
    wrap64_eq_self (by unfold minInt; omega) (by unfold maxInt; omega)
  rw [hms, hdiv, hmax]

theorem jitterBound_of_neg (x : Int) (h1 : x ≤ -1) (h2 : minInt ≤ x * 1000) :
    jitterBound x ≤ 0 := by
  unfold jitterBound
  unfold minInt at h2
  have hms : wrap64 (x * 1000) = x * 1000 :=
    wrap64_eq_self (by unfold minInt; omega) (by unfold maxInt; omega)
  have hdiv : Int.tdiv (x * 1000) 3 = -((-(x * 1000)) / 3) := by
    have h := @Int.tdiv_eq_ediv (-(x * 1000)) 3 (by omega) (by omega)
    rw [← h, Int.neg_tdiv, neg_neg]
  have hmax : wrap64 (-((-(x * 1000)) / 3) + 1) = -((-(x * 1000)) / 3) + 1 :=
    wrap64_eq_self (by unfold minInt; omega) (by unfold maxInt; omega)
  rw [hms, hdiv, hmax]
  omega

/-- Without overflow of the milliseconds, the jittered value is the base plus
or minus a jitter amount of at most a third of the base. -/
theorem jittered_of_range (x : Int) (u1 u2 : Nat) (h1 : 0 ≤ x)
    (h2 : x * 1000 + x * 1000 / 3 ≤ maxInt) :
    ∃ j : Int, 0 ≤ j ∧ j ≤ x * 1000 / 3 ∧
      jittered x u1 u2 = some (if (u2 : Int) % 2 = 1 then x * 1000 + j else x * 1000 - j) := by
  unfold maxInt at h2
  have hms : wrap64 (x * 1000) = x * 1000 :=
    wrap64_eq_self (by unfold minInt; omega) (by unfold maxInt; omega)
  have hb := jitterBound_of_nonneg x h1 (by unfold maxInt; omega)
  have hpos : 0 < x * 1000 / 3 + 1 := by omega
  have hj0 : 0 ≤ (u1 : Int) % (x * 1000 / 3 + 1) := Int.emod_nonneg _ (by omega)
  have hj1 : (u1 : Int) % (x * 1000 / 3 + 1) < x * 1000 / 3 + 1 := Int.emod_lt_of_pos _ hpos
  have hI1 : Intn (x * 1000 / 3 + 1) u1 = some ((u1 : Int) % (x * 1000 / 3 + 1)) := by
    simp only [Intn]
    rw [if_neg (by omega)]
  refine ⟨(u1 : Int) % (x * 1000 / 3 + 1), hj0, by omega, ?_⟩
  simp only [jittered, hms, hb, hI1, Intn_two]
  generalize (u1 : Int) % (x * 1000 / 3 + 1) = j at hj0 hj1
  have hadd : wrap64 (x * 1000 + j) = x * 1000 + j :=
    wrap64_eq_self (by unfold minInt; omega) (by unfold maxInt; omega)
  have hsub : wrap64 (x * 1000 - j) = x * 1000 - j :=
    wrap64_eq_self (by unfold minInt; omega) (by unfold maxInt; omega)
  rw [hadd, hsub]

theorem two_pow_toNat_le_53 (i : Int) (h1 : 0 ≤ i) (h2 : i ≤ 53) :
    (1 : Int) ≤ 2 ^ i.toNat ∧ (2 : Int) ^ i.toNat ≤ 9007199254740992 := by
  have hb : i.toNat ≤ 53 := by omega
  constructor
  · exact one_le_pow₀ (by norm_num)
  · calc (2 : Int) ^ i.toNat ≤ 2 ^ 53 := pow_le_pow_right₀ (by norm_num) hb
      _ = 9007199254740992 := by norm_num

/-- C17, as amended: for every number of seconds `i ≥ 0` with `i * 1000` in range, the
bound `maxJitter + 1` that `jitter` passes to `rand.Intn` is at least 1 and
both draws are defined; for every `i ≤ -1` with `i * 1000` in range the bound
is at most 0 and the draw panics. `ExponentialJitterBackoff` passes
`2^i` truncated to an integer, which is not negative (for `i ≤ 62`), and it
is defined for every attempt number `i ≤ 53`, the range in which
`2^i * 1000` does not overflow. -/
theorem jitter_draws_defined (conv : Int → Int) (i : Int) (u1 u2 : Nat) :
    (jitter i u1 u2 = none ↔ jitterBound i ≤ 0) ∧
    (0 ≤ i → i * 1000 ≤ maxInt →
      1 ≤ jitterBound i ∧ ∃ d : Int, jitter i u1 u2 = some d) ∧
    (i ≤ -1 → minInt ≤ i * 1000 → jitterBound i ≤ 0 ∧ jitter i u1 u2 = none) ∧
    (i ≤ 62 → 0 ≤ pow2ToInt conv i) ∧
    (i ≤ 53 → ∃ d : Int, ExponentialJitterBackoff conv i u1 u2 = some d) := by
  have hnone : ∀ x : Int, jitter x u1 u2 = none ↔ jitterBound x ≤ 0 := by
    intro x
    rw [jitter_eq_clamp_jittered, Option.map_eq_none', jittered_eq_none_iff]
  have hsome : ∀ x : Int, 0 ≤ x → x * 1000 ≤ maxInt →
      1 ≤ jitterBound x ∧ ∃ d : Int, jitter x u1 u2 = some d := by
    intro x h1 h2
    have hb := jitterBound_of_nonneg x h1 h2
    have hpos : 1 ≤ jitterBound x := by rw [hb]; omega
    refine ⟨hpos, ?_⟩
    cases hj : jitter x u1 u2 with
    | none => rw [hnone x] at hj; omega
    | some d => exact ⟨d, rfl⟩
  refine ⟨hnone i, hsome i, ?_, ?_, ?_⟩
  · intro h1 h2
    have hb := jitterBound_of_neg i h1 h2
    exact ⟨hb, (hnone i).2 hb⟩
  · intro h
    unfold pow2ToInt
    by_cases hneg : i < 0
    · rw [if_pos hneg]
    · rw [if_neg hneg, if_pos h]
      exact le_of_lt (pow_pos (by norm_num) _)
  · intro h
    unfold ExponentialJitterBackoff
    by_cases hneg : i < 0
    · have hp : pow2ToInt conv i = 0 := by unfold pow2ToInt; rw [if_pos hneg]
      rw [hp]
      exact (hsome 0 (le_refl 0) (by decide)).2
    · rw [pow2ToInt_of_le conv i (by omega) (by omega)]
      obtain ⟨hlo, hhi⟩ := two_pow_toNat_le_53 i (by omega) h
      exact (hsome _ (by omega) (by unfold maxInt; omega)).2

/-- Witness of C17: `jitter(1)` draws below 334; `jitter(-1)` passes -332 to
`rand.Intn` and panics. -/
theorem jitter_draws_defined_witness :
    (1 ≤ jitterBound 1 ∧ ∃ d : Int, jitter 1 0 0 = some d) ∧
    (jitterBound (-1) ≤ 0 ∧ jitter (-1) 0 0 = none) ∧
    (∃ d : Int, ExponentialJitterBackoff (fun _ => 0) 10 0 0 = some d) :=
  ⟨(jitter_draws_defined (fun _ => 0) 1 0 0).2.1 (by decide) (by decide),
   (jitter_draws_defined (fun _ => 0) (-1) 0 0).2.2.1 (by decide) (by decide),
   (jitter_draws_defined (fun _ => 0) 10 0 0).2.2.2.2 (by decide)⟩

/-- C18: `jitter(0)` returns exactly one millisecond for every outcome of the
draws: the jittered value is 0 and the clamp makes it 1. For every `i ≥ 1`
without overflow of the milliseconds the jittered value `ms ± jitterAmount` is
at least `ms - ms / 3`, which is positive, and the clamp leaves it
unchanged. -/
theorem jitter_clamp_only_at_zero (i : Int) (u1 u2 : Nat) :
    (jittered 0 u1 u2 = some 0 ∧ clamp 0 = 1 ∧ jitter 0 u1 u2 = some (1 * Millisecond)) ∧
    (1 ≤ i → i * 1000 + i * 1000 / 3 ≤ maxInt →
      ∃ m : Int, jittered i u1 u2 = some m ∧
        i * 1000 - i * 1000 / 3 ≤ m ∧ m ≤ i * 1000 + i * 1000 / 3 ∧
        0 < i * 1000 - i * 1000 / 3 ∧
        clamp m = m ∧
        jitter i u1 u2 = some (wrap64 (m * Millisecond))) := by
  constructor
  · obtain ⟨j, hj0, hj1, hjit⟩ := jittered_of_range 0 u1 u2 (le_refl 0) (by decide)
    have hj : j = 0 := by omega
    subst hj
    have h0 : jittered 0 u1 u2 = some 0 := by
      rw [hjit]
      split <;> rfl
    refine ⟨h0, by decide, ?_⟩
    rw [jitter_eq_clamp_jittered, h0]
    decide
  · intro h1 h2
    obtain ⟨j, hj0, hj1, hjit⟩ := jittered_of_range i u1 u2 (by omega) h2
    have hm : ∀ m : Int, i * 1000 - i * 1000 / 3 ≤ m → clamp m = m := by
      intro m hm
      unfold clamp
      rw [if_neg (by omega)]
    by_cases hcoin : (u2 : Int) % 2 = 1
    · rw [if_pos hcoin] at hjit
      refine ⟨_, hjit, by omega, by omega, by omega, hm _ (by omega), ?_⟩
      rw [jitter_eq_clamp_jittered, hjit, Option.map_some', hm _ (by omega)]
    · rw [if_neg hcoin] at hjit
      refine ⟨_, hjit, by omega, by omega, by omega, hm _ (by omega), ?_⟩
      rw [jitter_eq_clamp_jittered, hjit, Option.map_some', hm _ (by omega)]

/-- Witness of C18: `jitter(1)`, base 1000 ms: the jittered value is at least
667 and the clamp leaves it unchanged. -/
theorem jitter_clamp_only_at_zero_witness :
    ∃ m : Int, jittered 1 0 0 = some m ∧
      1 * 1000 - 1 * 1000 / 3 ≤ m ∧ m ≤ 1 * 1000 + 1 * 1000 / 3 ∧
      (0 : Int) < 1 * 1000 - 1 * 1000 / 3 ∧
      clamp m = m ∧
      jitter 1 0 0 = some (wrap64 (m * Millisecond)) :=
  (jitter_clamp_only_at_zero 1 0 0).2 (by decide) (by decide)

/-! ## The attempt counter at the largest budget -/

/-- With the budget `maxInt`, an operation that is retried while the attempt
number is positive is invoked with `1, ..., maxInt` and then, the counter
having wrapped around, with `minInt`: in this run the attempt numbers are not
the integers `1, ..., m`. -/
theorem DoWithBackoff_maxInt_wraps :
    ∃ (fuel : Nat) (r : Result Nat),
      Do fuel maxInt retryWhilePositive 0 = some r ∧
      r.outcome = Outcome.returned none ∧
      minInt ∈ attempts r.trace ∧
      attempts r.trace ≠ attemptsFrom 1 (invocations r.trace) := by
  have hretry : ∀ (a : Int) (s : Nat), 1 ≤ a → a < maxInt →
      (retryWhilePositive a s).1.1 = true ∧ (retryWhilePositive a s).1.2 ≠ none := by
    intro a s h1 _
    have h0 : 0 < a := by omega
    simp [retryWhilePositive, h0, errorsNew]
  obtain ⟨n, hn⟩ : ∃ n : Nat, (1 : Int) + (n : Int) = maxInt :=
    ⟨(maxInt - 1).toNat, by rw [Int.toNat_of_nonneg (by decide)]; decide⟩
  obtain ⟨s1, tr, _, hloop⟩ :=
    loop_reaches maxInt retryWhilePositive (pureBackoff DefaultBackoff) maxInt
      (fires_DefaultBackoff.firesThrough _) (le_refl _) (le_refl _) hretry
      n 1 0 2 (le_refl 1) hn
  have hmax : (retryWhilePositive maxInt s1).1.1 = true ∧
      (retryWhilePositive maxInt s1).1.2 ≠ none := by
    simp [retryWhilePositive, maxInt, errorsNew]
  have hwrap : wrap64 (maxInt + 1) = minInt := by decide
  have hstep := loop_retry maxInt retryWhilePositive (pureBackoff DefaultBackoff) 1 maxInt s1
    hmax.1 hmax.2 (wrap64_le_maxInt _) (fires_DefaultBackoff _ _)
  rw [hwrap] at hstep
  have hlast := loop_stop maxInt retryWhilePositive (pureBackoff DefaultBackoff) 0 minInt
    ((pureBackoff DefaultBackoff : BackoffStrategy Nat) minInt
      (retryWhilePositive maxInt s1).2).2
    (Or.inl (by simp [retryWhilePositive, minInt]))
  rw [hlast] at hstep
  rw [hstep] at hloop
  simp only [Option.map_some'] at hloop
  have key : ∃ r : Result Nat,
      loop maxInt retryWhilePositive (pureBackoff DefaultBackoff) (2 + n) 1 0 = some r ∧
      r.outcome = Outcome.returned none ∧ minInt ∈ attempts r.trace :=
    ⟨_, hloop, by simp [Result.prepend, retryWhilePositive, minInt],
      by
        simp only [Result.prepend]
        rw [attempts_append, attempts_append]
        apply List.mem_append_right
        apply List.mem_append_right
        simp [attempts, calls]⟩
  obtain ⟨r, hr, ho, hmem⟩ := key
  refine ⟨2 + n, r, hr, ho, hmem, ?_⟩
  intro heq
  rw [heq] at hmem
  have := le_of_mem_attemptsFrom _ _ _ hmem
  unfold minInt at this
  omega

/-! ## Runs of retried attempts, in the states a run can reach -/

theorem closed_DefaultBackoff {σ : Type} {I : σ → Prop} {fn : Func σ} {b : BackoffStrategy σ}
    (h : Closed I fn b) : Closed I fn (pureBackoff DefaultBackoff) :=
  ⟨h.1, fun _ _ hs => hs⟩

theorem firesThroughOn_DefaultBackoff {σ : Type} (I : σ → Prop) (k : Int) :
    FiresThroughOn I (pureBackoff DefaultBackoff : BackoffStrategy σ) k :=
  fun i s _ _ _ => fires_DefaultBackoff i s

/-- While, in the states of `I`, the operation asks for a retry with an error
on every attempt below `k`, and `k` is within the budget, the loop entered at
attempt `a` in a state of `I` reaches attempt `k`, in a state of `I`, after
invoking the operation with `a, ..., k-1`. -/
theorem loop_reaches_on {σ : Type} (N : Int) (fn : Func σ) (b : BackoffStrategy σ)
    (I : σ → Prop) (hcl : Closed I fn b)
    (k : Int) (hb : FiresThroughOn I b k) (hkN : k ≤ N) (hk : k ≤ maxInt)
    (hretry : ∀ (a : Int) (s : σ), I s → 1 ≤ a → a < k →
      (fn a s).1.1 = true ∧ (fn a s).1.2 ≠ none) :
    ∀ (n : Nat) (a : Int) (s : σ) (fuel : Nat), I s → 1 ≤ a → a + (n : Int) = k →
      ∃ (s1 : σ) (tr : List Event), I s1 ∧ attempts tr = attemptsFrom a n ∧
        loop N fn b (fuel + n) a s = (loop N fn b fuel k s1).map (Result.prepend tr) := by
  intro n
  induction n with
  | zero =>
    intro a s fuel hs _ hak
    have : a = k := by simpa using hak
    subst this
    refine ⟨s, [], hs, rfl, ?_⟩
    show loop N fn b fuel a s = _
    cases loop N fn b fuel a s <;> simp [prepend_nil]
  | succ n ih =>
    intro a s fuel hs ha hak
    have hlt : a < k := by push_cast at hak; omega
    obtain ⟨hc, he⟩ := hretry a s hs ha hlt
    have hw : wrap64 (a + 1) = a + 1 :=
      wrap64_eq_self (by unfold minInt; omega) (by omega)
    have hs1 : I (fn a s).2 := hcl.1 a s hs
    have hstep := loop_retry N fn b (fuel + n) a s hc he (by rw [hw]; omega)
      (by rw [hw]; exact hb _ _ hs1 (by omega) (by omega))
    obtain ⟨s1, tr, hs2, htr, hloop⟩ :=
      ih (a + 1) (b (wrap64 (a + 1)) (fn a s).2).2 fuel (hcl.2 _ _ hs1) (by omega)
        (by push_cast at hak; omega)
    rw [hw] at hstep
    rw [hw] at hloop
    refine ⟨s1, [Event.call a (fn a s).1.1 (fn a s).1.2,
      Event.backoff (a + 1) (b (a + 1) (fn a s).2).1,
      Event.tick (wrap64 ((b (a + 1) (fn a s).2).1 + 1 * Microsecond))] ++ tr, hs2, ?_, ?_⟩
    · rw [attempts_append, htr]
      rfl
    · rw [show fuel + (n + 1) = fuel + n + 1 from rfl, hstep, hloop, map_prepend_map_prepend]

/-- The loop entered at attempt 1 with an operation that is retried on the
attempts below `k` reaches attempt `k` with `1, ..., k-1` invoked. -/
theorem DoWithBackoff_reaches_on {σ : Type} (N : Int) (k : Nat) (fn : Func σ)
    (b : BackoffStrategy σ) (s : σ) (fuel : Nat) (I : σ → Prop)
    (hN : N ≤ maxInt) (hk1 : 1 ≤ k) (hkN : (k : Int) ≤ N)
    (hs : I s) (hcl : Closed I fn b)
    (hretry : ∀ (a : Int) (s : σ), I s → 1 ≤ a → a < (k : Int) →
      (fn a s).1.1 = true ∧ (fn a s).1.2 ≠ none)
    (hb : FiresThroughOn I b k) (hfuel : k ≤ fuel) :
    ∃ (s1 : σ) (tr : List Event) (f : Nat), I s1 ∧ attempts tr = attemptsFrom 1 (k - 1) ∧
      DoWithBackoff fuel N fn b s = (loop N fn b (f + 1) k s1).map (Result.prepend tr) := by
  obtain ⟨s1, tr, hs1, htr, hloop⟩ :=
    loop_reaches_on N fn b I hcl k hb hkN (by omega) hretry (k - 1) 1 s (fuel - k + 1) hs
      (le_refl 1) (by omega)
  refine ⟨s1, tr, fuel - k, hs1, htr, ?_⟩
  unfold DoWithBackoff
  rw [← hloop]
  congr 1
  omega

/-- A run whose attempts below `k` are retried and whose attempt `k` ends the
loop (no retry wanted, or no error) returns what attempt `k` returned, after
exactly `k` invocations. -/
theorem DoWithBackoff_stops_on {σ : Type} (N : Int) (k : Nat) (fn : Func σ)
    (b : BackoffStrategy σ) (s : σ) (fuel : Nat) (I : σ → Prop)
    (hN : N ≤ maxInt) (hk1 : 1 ≤ k) (hkN : (k : Int) ≤ N)
    (hs : I s) (hcl : Closed I fn b)
    (hretry : ∀ (a : Int) (s : σ), I s → 1 ≤ a → a < (k : Int) →
      (fn a s).1.1 = true ∧ (fn a s).1.2 ≠ none)
    (hstop : ∀ s : σ, I s → (fn k s).1.1 = false ∨ (fn k s).1.2 = none)
    (hb : FiresThroughOn I b k) (hfuel : k ≤ fuel) :
    ∃ (r : Result σ) (s1 : σ), I s1 ∧ DoWithBackoff fuel N fn b s = some r ∧
      r.outcome = Outcome.returned (fn k s1).1.2 ∧
      invocations r.trace = k ∧
      attempts r.trace = attemptsFrom 1 k ∧
      (calls r.trace).getLast? = some ((k : Int), (fn k s1).1.1, (fn k s1).1.2) := by
  obtain ⟨s1, tr, f, hs1, htr, hrun⟩ :=
    DoWithBackoff_reaches_on N k fn b s fuel I hN hk1 hkN hs hcl hretry hb hfuel
  rw [loop_stop N fn b f k s1 (hstop s1 hs1)] at hrun
  have hatt := attempts_prefix_then_call tr k hk1 (fn k s1).1.1 (fn k s1).1.2 htr
  refine ⟨_, s1, hs1, hrun, rfl, ?_, hatt, ?_⟩
  · rw [invocations_eq_length_attempts]
    show (attempts (tr ++ [Event.call (k : Int) (fn k s1).1.1 (fn k s1).1.2])).length = k
    rw [hatt, length_attemptsFrom]
  · show (calls (tr ++ [Event.call (k : Int) (fn k s1).1.1 (fn k s1).1.2])).getLast? = _
    rw [calls_append]
    simp [calls]

/-- A run whose every attempt up to the budget `n` is retried returns the
sentinel after exactly `n` invocations. -/
theorem DoWithBackoff_exhausts_on {σ : Type} (n : Nat) (fn : Func σ)
    (b : BackoffStrategy σ) (s : σ) (fuel : Nat) (I : σ → Prop)
    (hn1 : 1 ≤ n) (hn2 : (n : Int) < maxInt)
    (hs : I s) (hcl : Closed I fn b)
    (hretry : ∀ (a : Int) (s : σ), I s → 1 ≤ a → a ≤ (n : Int) →
      (fn a s).1.1 = true ∧ (fn a s).1.2 ≠ none)
    (hb : FiresThroughOn I b n) (hfuel : n ≤ fuel) :
    ∃ r : Result σ, DoWithBackoff fuel n fn b s = some r ∧
      r.outcome = Outcome.returned errMaxRetriesReached ∧
      invocations r.trace = n ∧
      attempts r.trace = attemptsFrom 1 n := by
  obtain ⟨s1, tr, f, hs1, htr, hrun⟩ := DoWithBackoff_reaches_on n n fn b s fuel I (by omega)
    hn1 (le_refl _) hs hcl (fun a s hs h1 h2 => hretry a s hs h1 (by omega)) hb hfuel
  obtain ⟨hc, he⟩ := hretry n s1 hs1 (by omega) (le_refl _)
  have hw : wrap64 ((n : Int) + 1) = n + 1 :=
    wrap64_eq_self (by unfold minInt; omega) (by omega)
  rw [loop_exhausted n fn b f n s1 hc he (by rw [hw]; omega)] at hrun
  have hatt := attempts_prefix_then_call tr n hn1 (fn n s1).1.1 (fn n s1).1.2 htr
  refine ⟨_, hrun, rfl, ?_, hatt⟩
  rw [invocations_eq_length_attempts]
  show (attempts (tr ++ [Event.call (n : Int) (fn n s1).1.1 (fn n s1).1.2])).length = n
  rw [hatt, length_attemptsFrom]

/-- A run whose first retry gets a delay the timer does not accept is blocked
after the first invocation and never returns. -/
theorem DoWithBackoff_never_returns_of_blocked {σ : Type} (N : Int) (fn : Func σ)
    (b : BackoffStrategy σ) (s : σ)
    (hc : (fn 1 s).1.1 = true) (he : (fn 1 s).1.2 ≠ none) (hN : wrap64 (1 + 1) ≤ N)
    (hd : wrap64 ((b (wrap64 (1 + 1)) (fn 1 s).2).1 + 1 * Microsecond) ≤ 0) :
    ¬ ∃ (fuel : Nat) (r : Result σ) (e : error),
      DoWithBackoff fuel N fn b s = some r ∧ r.outcome = Outcome.returned e := by
  rintro ⟨fuel, r, e, hr, hout⟩
  cases fuel with
  | zero => exact absurd hr (loop_none_of_zero _ _ _ _ _ _)
  | succ fuel =>
    unfold DoWithBackoff at hr
    rw [loop_blocked N fn b fuel 1 s hc he hN hd] at hr
    cases hr
    cases hout

/-! ## The retry loop: exhausted budget, declined retry, success -/

/-- C1, as amended: for every budget `n` with `1 ≤ n < maxInt`, every backoff
strategy whose delay plus one microsecond is positive for the retries `2..n`,
and every operation that returns `(true, non-nil error)` on every attempt
`1..n` (in every state `I` the run can be in), `DoWithBackoff` returns the
sentinel `errMaxRetriesReached` after invoking the operation exactly `n`
times, with the attempt numbers `1..n`; and so does `Do`, whose backoff
returns zero. -/
theorem DoWithBackoff_exhausts_budget {σ : Type} (n : Nat) (fn : Func σ)
    (b : BackoffStrategy σ) (s : σ) (fuel : Nat) (I : σ → Prop)
    (hn1 : 1 ≤ n) (hn2 : (n : Int) < maxInt)
    (hs : I s) (hcl : Closed I fn b)
    (hretry : ∀ (a : Int) (s : σ), I s → 1 ≤ a → a ≤ (n : Int) →
      (fn a s).1.1 = true ∧ (fn a s).1.2 ≠ none)
    (hb : FiresThroughOn I b n) (hfuel : n ≤ fuel) :
    (∃ r : Result σ, DoWithBackoff fuel n fn b s = some r ∧
      r.outcome = Outcome.returned errMaxRetriesReached ∧
      invocations r.trace = n ∧
      attempts r.trace = attemptsFrom 1 n) ∧
    (∃ r : Result σ, Do fuel n fn s = some r ∧
      r.outcome = Outcome.returned errMaxRetriesReached ∧
      invocations r.trace = n ∧
      attempts r.trace = attemptsFrom 1 n) :=
  ⟨DoWithBackoff_exhausts_on n fn b s fuel I hn1 hn2 hs hcl hretry hb hfuel,
   DoWithBackoff_exhausts_on n fn (pureBackoff DefaultBackoff) s fuel I hn1 hn2 hs
     (closed_DefaultBackoff hcl) hretry (firesThroughOn_DefaultBackoff I _) hfuel⟩

/-- Witness of C1: budget 3 and an operation that always returns
`(true, err)`: the sentinel after exactly 3 invocations. -/
theorem DoWithBackoff_exhausts_budget_witness :
    (∃ r : Result Nat, DoWithBackoff 3 3 alwaysRetry (pureBackoff DefaultBackoff) 0 = some r ∧
      r.outcome = Outcome.returned errMaxRetriesReached ∧
      invocations r.trace = 3 ∧
      attempts r.trace = attemptsFrom 1 3) ∧
    (∃ r : Result Nat, Do 3 3 alwaysRetry 0 = some r ∧
      r.outcome = Outcome.returned errMaxRetriesReached ∧
      invocations r.trace = 3 ∧
      attempts r.trace = attemptsFrom 1 3) :=
  DoWithBackoff_exhausts_budget 3 alwaysRetry (pureBackoff DefaultBackoff) 0 3
    (fun _ => True) (by decide) (by decide) trivial
    ⟨fun _ _ _ => trivial, fun _ _ _ => trivial⟩
    (fun a s _ _ _ => alwaysRetry_retries a s)
    (firesThroughOn_DefaultBackoff _ _) (by decide)

/-- Counterexample to C1 as stated. With budget 0 the operation that always
returns `(true, err)` is invoked once, not 0 times. With budget 3 and a
backoff of minus one second the run is blocked in the timer after the first
invocation and never returns. With budget `maxInt` the incremented counter
wraps around instead of exceeding the budget and the run never finishes. -/
theorem DoWithBackoff_exhausts_budget_counterexample :
    ((Do 1 0 alwaysRetry 0).map (fun r => (r.outcome, invocations r.trace, r.state))
        = some (Outcome.returned errMaxRetriesReached, 1, 1)) ∧
    (¬ ∃ (fuel : Nat) (r : Result Nat), Do fuel 0 alwaysRetry 0 = some r ∧
        invocations r.trace = 0) ∧
    ((DoWithBackoff 3 3 alwaysRetry negativeBackoff 0).map
        (fun r => (r.outcome, attempts r.trace)) = some (Outcome.blocked, [1])) ∧
    (¬ ∃ (fuel : Nat) (r : Result Nat) (e : error),
        DoWithBackoff fuel 3 alwaysRetry negativeBackoff 0 = some r ∧
        r.outcome = Outcome.returned e) ∧
    (¬ ∃ (fuel : Nat) (r : Result Nat), Do fuel maxInt alwaysRetry 0 = some r) := by
  refine ⟨by decide, ?_, by decide, ?_, ?_⟩
  · rintro ⟨fuel, r, hr, hinv⟩
    cases fuel with
    | zero => simp [Do, DoWithBackoff, loop] at hr
    | succ fuel =>
      have h := loop_exhausted 0 alwaysRetry (pureBackoff DefaultBackoff) fuel 1 0
        (alwaysRetry_retries 1 0).1 (alwaysRetry_retries 1 0).2 (by decide)
      unfold Do DoWithBackoff at hr
      rw [h] at hr
      cases hr
      simp [invocations, calls] at hinv
  · exact DoWithBackoff_never_returns_of_blocked 3 alwaysRetry negativeBackoff 0
      (alwaysRetry_retries 1 0).1 (alwaysRetry_retries 1 0).2 (by decide) (by decide)
  · rintro ⟨fuel, r, hr⟩
    unfold Do DoWithBackoff at hr
    rw [loop_maxInt_never_returns alwaysRetry _ alwaysRetry_retries fires_DefaultBackoff] at hr
    cases hr

/-- C2, as amended: for every budget `N`, every `k` with `1 ≤ k ≤ N`, every
backoff strategy whose delay plus one microsecond is positive for the retries
`2..k`, and every operation that returns `(true, non-nil error)` on the
attempts `1..k-1` and `(false, err)` on attempt `k` (in every state `I` the run
can be in), `DoWithBackoff` returns exactly `err`, the value of the last
invocation, and has invoked the operation exactly `k` times, with the attempt
numbers `1..k`. -/
theorem DoWithBackoff_returns_declined_error {σ : Type} (N : Int) (k : Nat) (fn : Func σ)
    (b : BackoffStrategy σ) (err : error) (s : σ) (fuel : Nat) (I : σ → Prop)
    (hN : N ≤ maxInt) (hk1 : 1 ≤ k) (hkN : (k : Int) ≤ N)
    (hs : I s) (hcl : Closed I fn b)
    (hretry : ∀ (a : Int) (s : σ), I s → 1 ≤ a → a < (k : Int) →
      (fn a s).1.1 = true ∧ (fn a s).1.2 ≠ none)
    (hstop : ∀ s : σ, I s → (fn k s).1 = (false, err))
    (hb : FiresThroughOn I b k) (hfuel : k ≤ fuel) :
    ∃ r : Result σ, DoWithBackoff fuel N fn b s = some r ∧
      r.outcome = Outcome.returned err ∧
      invocations r.trace = k ∧
      attempts r.trace = attemptsFrom 1 k ∧
      (calls r.trace).getLast? = some ((k : Int), false, err) := by
  obtain ⟨r, s1, hs1, hrun, hout, hinv, hatt, hlast⟩ :=
    DoWithBackoff_stops_on N k fn b s fuel I hN hk1 hkN hs hcl hretry
      (fun s hs => Or.inl (by rw [hstop s hs])) hb hfuel
  rw [hstop s1 hs1] at hout hlast
  exact ⟨r, hrun, hout, hinv, hatt, hlast⟩

/-- Witness of C2: budget 3, a retryable failure on attempt 1 and `(false, err)`
on attempt 2: the run returns that `err` after 2 invocations. -/
theorem DoWithBackoff_returns_declined_error_witness :
    ∃ r : Result Nat,
      DoWithBackoff 2 3 (declineAt 2 (errorsNew 2)) (pureBackoff DefaultBackoff) 0 = some r ∧
      r.outcome = Outcome.returned (errorsNew 2) ∧
      invocations r.trace = 2 ∧
      attempts r.trace = attemptsFrom 1 2 ∧
      (calls r.trace).getLast? = some (2, false, errorsNew 2) :=
  DoWithBackoff_returns_declined_error 3 2 (declineAt 2 (errorsNew 2))
    (pureBackoff DefaultBackoff) (errorsNew 2) 0 2 (fun _ => True)
    (by decide) (by decide) (by decide) trivial
    ⟨fun _ _ _ => trivial, fun _ _ _ => trivial⟩
    (by
      intro a s _ h1 h2
      have ha : a = 1 := by omega
      subst ha
      simp [declineAt, errorsNew])
    (by intro s _; simp [declineAt])
    (firesThroughOn_DefaultBackoff _ _) (by decide)

/-- Counterexample to C2 as stated: budget 3, a retryable failure on attempt 1
and `(false, err)` on attempt 2, with a backoff of minus one second. The run
is blocked in the timer after the first invocation; it never returns `err`
and the operation is invoked once, not twice. -/
theorem DoWithBackoff_returns_declined_error_counterexample :
    ((DoWithBackoff 3 3 (declineAt 2 (errorsNew 2)) negativeBackoff 0).map
        (fun r => (r.outcome, attempts r.trace)) = some (Outcome.blocked, [1])) ∧
    (¬ ∃ (fuel : Nat) (r : Result Nat) (e : error),
        DoWithBackoff fuel 3 (declineAt 2 (errorsNew 2)) negativeBackoff 0 = some r ∧
        r.outcome = Outcome.returned e) := by
  refine ⟨by decide, ?_⟩
  exact DoWithBackoff_never_returns_of_blocked 3 (declineAt 2 (errorsNew 2)) negativeBackoff 0
    (by decide) (by decide) (by decide) (by decide)

/-- C3, as amended: for every budget `N`, every `k` with `1 ≤ k ≤ N`, every
backoff strategy whose delay plus one microsecond is positive for the retries
`2..k`, and every operation that returns `(true, non-nil error)` on the
attempts `1..k-1` and a nil error on attempt `k`, whatever its retry flag (in
every state `I` the run can be in), `DoWithBackoff` returns nil and has
invoked the operation exactly `k` times, with the attempt numbers `1..k`; and
so does `Do`, whose backoff returns zero. For `k = 1` no retry is made and
the condition on the backoff is empty. -/
theorem DoWithBackoff_returns_nil_on_success {σ : Type} (N : Int) (k : Nat) (fn : Func σ)
    (b : BackoffStrategy σ) (s : σ) (fuel : Nat) (I : σ → Prop)
    (hN : N ≤ maxInt) (hk1 : 1 ≤ k) (hkN : (k : Int) ≤ N)
    (hs : I s) (hcl : Closed I fn b)
    (hretry : ∀ (a : Int) (s : σ), I s → 1 ≤ a → a < (k : Int) →
      (fn a s).1.1 = true ∧ (fn a s).1.2 ≠ none)
    (hnil : ∀ s : σ, I s → (fn k s).1.2 = none)
    (hb : FiresThroughOn I b k) (hfuel : k ≤ fuel) :
    (∃ r : Result σ, DoWithBackoff fuel N fn b s = some r ∧
      r.outcome = Outcome.returned none ∧
      invocations r.trace = k ∧
      attempts r.trace = attemptsFrom 1 k) ∧
    (∃ r : Result σ, Do fuel N fn s = some r ∧
      r.outcome = Outcome.returned none ∧
      invocations r.trace = k ∧
      attempts r.trace = attemptsFrom 1 k) := by
  constructor
  · obtain ⟨r, s1, hs1, hrun, hout, hinv, hatt, _⟩ :=
      DoWithBackoff_stops_on N k fn b s fuel I hN hk1 hkN hs hcl hretry
        (fun s hs => Or.inr (hnil s hs)) hb hfuel
    rw [hnil s1 hs1] at hout
    exact ⟨r, hrun, hout, hinv, hatt⟩
  · obtain ⟨r, s1, hs1, hrun, hout, hinv, hatt, _⟩ :=
      DoWithBackoff_stops_on N k fn (pureBackoff DefaultBackoff) s fuel I hN hk1 hkN hs
        (closed_DefaultBackoff hcl) hretry
        (fun s hs => Or.inr (hnil s hs)) (firesThroughOn_DefaultBackoff I _) hfuel
    rw [hnil s1 hs1] at hout
    exact ⟨r, hrun, hout, hinv, hatt⟩

/-- Witness of C3: the default budget 10, `(true, err)` on the attempts 1 and 2,
then `(false, nil)` on attempt 3: nil after 3 invocations. -/
theorem DoWithBackoff_returns_nil_on_success_witness :
    (∃ r : Result Nat,
      DoWithBackoff 3 10 (declineAt 3 none) (pureBackoff DefaultBackoff) 0 = some r ∧
      r.outcome = Outcome.returned none ∧
      invocations r.trace = 3 ∧
      attempts r.trace = attemptsFrom 1 3) ∧
    (∃ r : Result Nat, Do 3 10 (declineAt 3 none) 0 = some r ∧
      r.outcome = Outcome.returned none ∧
      invocations r.trace = 3 ∧
      attempts r.trace = attemptsFrom 1 3) :=
  DoWithBackoff_returns_nil_on_success 10 3 (declineAt 3 none) (pureBackoff DefaultBackoff)
    0 3 (fun _ => True) (by decide) (by decide) (by decide) trivial
    ⟨fun _ _ _ => trivial, fun _ _ _ => trivial⟩
    (by
      intro a s _ h1 h2
      have ha : a < 3 := by omega
      simp [declineAt, errorsNew, ha])
    (by intro s _; simp [declineAt])
    (firesThroughOn_DefaultBackoff _ _) (by decide)

/-- Counterexample to C3 as stated: the default budget 10, `(true, err)` on the
attempts 1 and 2, then `(false, nil)` on attempt 3, with a backoff of minus
one second. The run is blocked in the timer after the first invocation; it
never returns nil and the operation is invoked once, not three times. -/
theorem DoWithBackoff_returns_nil_on_success_counterexample :
    ((DoWithBackoff 3 10 (declineAt 3 none) negativeBackoff 0).map
        (fun r => (r.outcome, attempts r.trace)) = some (Outcome.blocked, [1])) ∧
    (¬ ∃ (fuel : Nat) (r : Result Nat) (e : error),
        DoWithBackoff fuel 10 (declineAt 3 none) negativeBackoff 0 = some r ∧
        r.outcome = Outcome.returned e) := by
  refine ⟨by decide, ?_⟩
  exact DoWithBackoff_never_returns_of_blocked 10 (declineAt 3 none) negativeBackoff 0
    (by decide) (by decide) (by decide) (by decide)

/-! ## Runs outside the amended claims: the wrapped counter, the blocked timer -/

/-- In a run that returns, the backoff was called with the attempt numbers of
the invocations after the first, in order. -/
theorem loop_backoffArgs_tail {σ : Type} (N : Int) (fn : Func σ) (b : BackoffStrategy σ) :
    ∀ (fuel : Nat) (a : Int) (s : σ) (r : Result σ) (e : error),
      loop N fn b fuel a s = some r → r.outcome = Outcome.returned e →
      a :: backoffArgs r.trace = attempts r.trace := by
  intro fuel
  induction fuel with
  | zero => intro a s r e h; exact absurd h (loop_none_of_zero N fn b a s r)
  | succ fuel ih =>
    intro a s r e h hout
    rcases loop_succ_cases N fn b fuel a s r h with
      ⟨ht, _⟩ | ⟨ht, _⟩ | ⟨_, hb, _⟩ | ⟨r1, hr1, ht, ho, _⟩
    · rw [ht]; simp [backoffArgs, attempts, calls]
    · rw [ht]; simp [backoffArgs, attempts, calls]
    · rw [hb] at hout; cases hout
    · have h1 := ih _ _ r1 e hr1 (by rw [← ho]; exact hout)
      rw [ht, attempts_retry_steps, ← h1]
      simp [backoffArgs]

/-- Counterexample to C12 as stated: with the budget `maxInt`, an operation
that is retried while the attempt number is positive is invoked with
`1, ..., maxInt` and then, the counter having wrapped around, with `minInt`;
the attempt numbers of this run are not `1, ..., m`. -/
theorem DoWithBackoff_attempts_consecutive_counterexample :
    ∃ (fuel : Nat) (r : Result Nat),
      Do fuel maxInt retryWhilePositive 0 = some r ∧
      minInt ∈ attempts r.trace ∧
      ¬ (∃ m : Nat, attempts r.trace = attemptsFrom 1 m) := by
  obtain ⟨fuel, r, hr, _, hmem, _⟩ := DoWithBackoff_maxInt_wraps
  refine ⟨fuel, r, hr, hmem, ?_⟩
  rintro ⟨m, hm⟩
  rw [hm] at hmem
  have := le_of_mem_attemptsFrom _ _ _ hmem
  unfold minInt at this
  omega

/-- Counterexample to C13 as stated. Budget 3, an operation that always
returns `(true, err)` and a backoff of minus one second: the run is blocked in
the timer after 1 invocation, the backoff was called once (with 2), not 0
times, and the trace ends with the timer, not with an invocation. And with
the budget `maxInt` the run of the operation that is retried while the attempt
number is positive returns, and the backoff was called with `minInt`, which is
not one of `2, ..., m`. -/
theorem DoWithBackoff_backoff_between_invocations_counterexample :
    ((DoWithBackoff 3 3 alwaysRetry negativeBackoff 0).map
        (fun r => (r.outcome, invocations r.trace, backoffArgs r.trace, r.trace.getLast?))
        = some (Outcome.blocked, 1, [2], some (Event.tick (-999999000)))) ∧
    (∃ (fuel : Nat) (r : Result Nat),
      Do fuel maxInt retryWhilePositive 0 = some r ∧
      r.outcome = Outcome.returned none ∧
      minInt ∈ backoffArgs r.trace ∧
      ¬ (∃ m : Nat, backoffArgs r.trace = attemptsFrom 2 m)) := by
  refine ⟨by decide, ?_⟩
  obtain ⟨fuel, r, hr, hout, hmem, _⟩ := DoWithBackoff_maxInt_wraps
  have htail := loop_backoffArgs_tail maxInt retryWhilePositive (pureBackoff DefaultBackoff)
    fuel 1 0 r none hr hout
  have hmem2 : minInt ∈ backoffArgs r.trace := by
    rw [← htail] at hmem
    rcases List.mem_cons.1 hmem with h | h
    · exact absurd h (by decide)
    · exact h
  refine ⟨fuel, r, hr, hout, hmem2, ?_⟩
  rintro ⟨m, hm⟩
  rw [hm] at hmem2
  have := le_of_mem_attemptsFrom _ _ _ hmem2
  unfold minInt at this
  omega

/-- Counterexample to C17 as stated: for the negative number of seconds
`-9223372036854776` the product `i * 1000` overflows to a positive `ms`, the
bound passed to `rand.Intn` is 3074457345618258539 and the draws are defined;
for `minInt` the product overflows to 0, the bound is 1 and `jitter` returns
one millisecond. `ExponentialJitterBackoff(63)` passes `minInt` to `jitter`
where the conversion of `2^63` gives `minInt`, and returns one millisecond. -/
theorem jitter_draws_defined_counterexample :
    jitterBound (-9223372036854776) = 3074457345618258539 ∧
    (jitter (-9223372036854776) 0 0).isSome = true ∧
    jitterBound minInt = 1 ∧
    jitter minInt 0 0 = some Millisecond ∧
    ExponentialJitterBackoff (fun _ => minInt) 63 0 0 = some Millisecond := by
  decide

/-- For `k = 1` no retry is made: the condition on the backoff is empty. -/
theorem firesThroughOn_one {σ : Type} (I : σ → Prop) (b : BackoffStrategy σ) :
    FiresThroughOn I b 1 := by
  intro i s _ h1 h2
  omega

end Try
